import Mathlib

/-!
# Verification of the `reporthesis` JUnit-to-HTML converter

A shallow embedding of `junit_to_html.py`: the report extractor
(`parse_junit`), the base-URL helper (`extract_base_url`) and the summary
values computed in `make_html` (`base_urls`, `min_time`, `max_time`).

Python strings are modelled as `String` / `List Char` (Unicode code points).
The Python library primitives the script relies on (`str.strip`,
`str.splitlines`, `str.split`, `str.lower` on the relevant ASCII prefixes,
`re` search for the three module-level patterns, `textwrap.shorten`,
`urlparse` restricted to `http(s)://` inputs, `float` on finite decimal
literals) are embedded as executable functions below, each with a comment
stating the exact scope of the model.
-/

namespace Reporthesis

/-- Python `str` whitespace (the characters for which `str.isspace()` holds
and which `str.strip()` / `str.split()` remove); `re`'s `\s` matches the
same set. -/
def isPyWS (c : Char) : Bool :=
  let n := c.toNat
  (0x9 ≤ n && n ≤ 0xd) || (0x1c ≤ n && n ≤ 0x1f) || n == 0x20 ||
  n == 0x85 || n == 0xa0 || n == 0x1680 ||
  (0x2000 ≤ n && n ≤ 0x200a) || n == 0x2028 || n == 0x2029 ||
  n == 0x202f || n == 0x205f || n == 0x3000

/-- The line boundaries recognised by Python `str.splitlines` (besides the
two-character boundary `"\r\n"`, handled separately). -/
def isLineB (c : Char) : Bool :=
  let n := c.toNat
  n == 0xa || n == 0xd || n == 0xb || n == 0xc ||
  (0x1c ≤ n && n ≤ 0x1e) || n == 0x85 || n == 0x2028 || n == 0x2029

/-- Every `splitlines` boundary character is Python whitespace. -/
theorem isPyWS_of_isLineB {c : Char} (h : isLineB c = true) : isPyWS c = true := by
  simp only [isLineB, isPyWS, Bool.or_eq_true, Bool.and_eq_true, decide_eq_true_eq,
    beq_iff_eq] at h ⊢
  omega

/-- `str.lstrip()` on code points. -/
def stripL (l : List Char) : List Char := l.dropWhile isPyWS

/-- `str.rstrip()` on code points. -/
def stripR (l : List Char) : List Char := (l.reverse.dropWhile isPyWS).reverse

/-- Python `str.strip()` on code points. -/
def pyStripL (l : List Char) : List Char := stripR (stripL l)

/-- Python `str.strip()`. -/
def pyStrip (s : String) : String := ⟨pyStripL s.data⟩

/-- Python `str.splitlines()`, accumulator-based: `acc` is the reversed
current line.  A trailing boundary does not open a final empty line. -/
def splitLinesAux : List Char → List Char → List (List Char)
  | [], acc => [acc.reverse]
  | '\r' :: '\n' :: rest, acc =>
      acc.reverse :: (if rest.isEmpty then [] else splitLinesAux rest [])
  | c :: rest, acc =>
      if isLineB c then
        acc.reverse :: (if rest.isEmpty then [] else splitLinesAux rest [])
      else splitLinesAux rest (c :: acc)

/-- Python `str.splitlines()` on code points (`"".splitlines() == []`). -/
def splitLinesL (l : List Char) : List (List Char) :=
  if l.isEmpty then [] else splitLinesAux l []

/-- Splitting on `'\n'` only (keeps a trailing empty line); used to relate
`splitlines` to `"\n".join`. -/
def splitNLAux : List Char → List Char → List (List Char)
  | [], acc => [acc.reverse]
  | c :: rest, acc =>
      if c = '\n' then acc.reverse :: splitNLAux rest []
      else splitNLAux rest (c :: acc)

def splitNL (l : List Char) : List (List Char) := splitNLAux l []

/-- `"\n".join` on code points. -/
def joinNLl : List (List Char) → List Char
  | [] => []
  | [l] => l
  | l :: ls => l ++ '\n' :: joinNLl ls

/-- ASCII case lowering.  This models `str.lower()` exactly as far as the
`"reproduce with"` prefix test in the script can observe it: the only code
point whose lowercase form is an ASCII letter is the corresponding ASCII
capital. -/
def lowerChar (c : Char) : Char :=
  if 'A' ≤ c ∧ c ≤ 'Z' then Char.ofNat (c.toNat + 32) else c

def lowerL (l : List Char) : List Char := l.map lowerChar

/-- `str.startswith` on code points. -/
def startsWithL (l pre : List Char) : Bool := pre.isPrefixOf l

-- sanity checks of the string model against CPython behaviour
example : splitLinesL "a\nb\rc\r\nd".data = ["a".data, "b".data, "c".data, "d".data] := by decide
example : splitLinesL "\n".data = [[]] := by decide
example : splitLinesL "".data = [] := by decide
example : splitLinesL "a\n\n".data = ["a".data, []] := by decide
example : pyStripL "  a b\t\n".data = "a b".data := by decide
example : startsWithL (lowerL "RePrOdUcE with:".data) "reproduce with".data = true := by decide

/-- ASCII decimal digits `'0'..'9'` (code points `0x30..0x39`). -/
def isAsciiDigit (c : Char) : Bool := 0x30 ≤ c.toNat && c.toNat ≤ 0x39

/-- Unicode decimal digits (category `Nd`), the characters matched by `\d`
in a Python 3 `str` regex.  The ranges are those of the Unicode `Nd`
category (ASCII, Arabic-Indic, the Brahmic scripts, fullwidth forms and the
supplementary-plane digit blocks). -/
def isPyDigit (c : Char) : Bool :=
  let n := c.toNat
  (0x30 ≤ n && n ≤ 0x39) || (0x660 ≤ n && n ≤ 0x669) ||
  (0x6f0 ≤ n && n ≤ 0x6f9) || (0x7c0 ≤ n && n ≤ 0x7c9) ||
  (0x966 ≤ n && n ≤ 0x96f) || (0x9e6 ≤ n && n ≤ 0x9ef) ||
  (0xa66 ≤ n && n ≤ 0xa6f) || (0xae6 ≤ n && n ≤ 0xaef) ||
  (0xb66 ≤ n && n ≤ 0xb6f) || (0xbe6 ≤ n && n ≤ 0xbef) ||
  (0xc66 ≤ n && n ≤ 0xc6f) || (0xce6 ≤ n && n ≤ 0xcef) ||
  (0xd66 ≤ n && n ≤ 0xd6f) || (0xde6 ≤ n && n ≤ 0xdef) ||
  (0xe50 ≤ n && n ≤ 0xe59) || (0xed0 ≤ n && n ≤ 0xed9) ||
  (0xf20 ≤ n && n ≤ 0xf29) || (0x1040 ≤ n && n ≤ 0x1049) ||
  (0x1090 ≤ n && n ≤ 0x1099) || (0x17e0 ≤ n && n ≤ 0x17e9) ||
  (0x1810 ≤ n && n ≤ 0x1819) || (0x1946 ≤ n && n ≤ 0x194f) ||
  (0x19d0 ≤ n && n ≤ 0x19d9) || (0x1a80 ≤ n && n ≤ 0x1a89) ||
  (0x1a90 ≤ n && n ≤ 0x1a99) || (0x1b50 ≤ n && n ≤ 0x1b59) ||
  (0x1bb0 ≤ n && n ≤ 0x1bb9) || (0x1c40 ≤ n && n ≤ 0x1c49) ||
  (0x1c50 ≤ n && n ≤ 0x1c59) || (0xa620 ≤ n && n ≤ 0xa629) ||
  (0xa8d0 ≤ n && n ≤ 0xa8d9) || (0xa900 ≤ n && n ≤ 0xa909) ||
  (0xa9d0 ≤ n && n ≤ 0xa9d9) || (0xa9f0 ≤ n && n ≤ 0xa9f9) ||
  (0xaa50 ≤ n && n ≤ 0xaa59) || (0xabf0 ≤ n && n ≤ 0xabf9) ||
  (0xff10 ≤ n && n ≤ 0xff19) || (0x104a0 ≤ n && n ≤ 0x104a9) ||
  (0x10d30 ≤ n && n ≤ 0x10d39) || (0x11066 ≤ n && n ≤ 0x1106f) ||
  (0x110f0 ≤ n && n ≤ 0x110f9) || (0x11136 ≤ n && n ≤ 0x1113f) ||
  (0x111d0 ≤ n && n ≤ 0x111d9) || (0x112f0 ≤ n && n ≤ 0x112f9) ||
  (0x11450 ≤ n && n ≤ 0x11459) || (0x114d0 ≤ n && n ≤ 0x114d9) ||
  (0x11650 ≤ n && n ≤ 0x11659) || (0x116c0 ≤ n && n ≤ 0x116c9) ||
  (0x11730 ≤ n && n ≤ 0x11739) || (0x118e0 ≤ n && n ≤ 0x118e9) ||
  (0x11950 ≤ n && n ≤ 0x11959) || (0x11c50 ≤ n && n ≤ 0x11c59) ||
  (0x11d50 ≤ n && n ≤ 0x11d59) || (0x11da0 ≤ n && n ≤ 0x11da9) ||
  (0x16a60 ≤ n && n ≤ 0x16a69) || (0x16b50 ≤ n && n ≤ 0x16b59) ||
  (0x1d7ce ≤ n && n ≤ 0x1d7ff) || (0x1e140 ≤ n && n ≤ 0x1e149) ||
  (0x1e2f0 ≤ n && n ≤ 0x1e2f9) || (0x1e950 ≤ n && n ≤ 0x1e959) ||
  (0x1fbf0 ≤ n && n ≤ 0x1fbf9)

/-- An `Nd` digit below `0x80` is an ASCII digit. -/
theorem isAsciiDigit_of_isPyDigit {c : Char} (h : isPyDigit c = true)
    (hc : c.toNat < 128) : isAsciiDigit c = true := by
  simp only [isPyDigit, Bool.or_eq_true, Bool.and_eq_true, decide_eq_true_eq] at h
  simp only [isAsciiDigit, Bool.and_eq_true, decide_eq_true_eq]
  omega

/-- `STATUS_RE.search`, the leftmost match of `r"\[(\d{3})\]"`; returns the
captured three digits. -/
def findStatusAux : List Char → Option (List Char)
  | '[' :: a :: b :: c :: ']' :: rest =>
      if isPyDigit a && isPyDigit b && isPyDigit c then some [a, b, c]
      else findStatusAux (a :: b :: c :: ']' :: rest)
  | _ :: rest => findStatusAux rest
  | [] => none

/-- `KIND_RE.search`, the leftmost match of `r"- ([^\n\r]+)"`; returns the
captured run of non-newline characters. -/
def findKindAux : List Char → Option (List Char)
  | '-' :: ' ' :: c :: rest =>
      if c = '\n' ∨ c = '\r' then findKindAux (' ' :: c :: rest)
      else some (c :: rest.takeWhile (fun d => !(d == '\n' || d == '\r')))
  | _ :: rest => findKindAux rest
  | [] => none

example : findStatusAux "err [500] boom".data = some "500".data := by decide
example : findStatusAux "[12] [1234] [a00]".data = none := by decide
example : findStatusAux "[[123]]".data = some "123".data := by decide
example : findKindAux "x [500] - Server error\nmore".data = some "Server error".data := by decide
example : findKindAux "a-b\n- \nc - d".data = some "d".data := by decide

/-- One Python Issue dictionary produced by `parse_junit`. -/
structure Issue where
  suite : String
  endpoint : String
  time : String
  msg : String
  msg_short : String
  status : String
  kind : String
  curl : String
deriving Repr, DecidableEq

/-- The state of the reproduction-block stripping loop in `parse_junit`:
the retained lines (`clean_lines`), the captured reproduction command
(`curl_cmd`, empty while none) and the `seen_reproduce` flag. -/
structure StripState where
  clean : List (List Char)
  curl : List Char
  seenRepro : Bool
deriving Repr, DecidableEq

/-- The body of `for line in lines:` in `parse_junit` (lines 76-95 of the
script). -/
def stripStep (st : StripState) (line : List Char) : StripState :=
  let stripped := pyStripL line
  if startsWithL (lowerL stripped) "reproduce with".data then
    { st with seenRepro := true }
  else if startsWithL stripped "curl ".data then
    if st.curl.isEmpty then { st with curl := stripped } else st
  else if st.seenRepro && (startsWithL stripped "curl ".data || stripped.isEmpty) then
    st
  else
    { st with clean := st.clean ++ [line] }

/-- The whole stripping loop over `raw_msg.splitlines()`. -/
def stripLines (raw : List Char) : StripState :=
  (splitLinesL raw).foldl stripStep ⟨[], [], false⟩

/-- `"\n".join(clean_lines).strip()`. -/
def cleanMsg (raw : List Char) : List Char := pyStripL (joinNLl (stripLines raw).clean)

/-- `msg_clean` with the fallback: if stripping removed everything, the raw
message is kept. -/
def processedMsg (raw : List Char) : List Char :=
  let m := cleanMsg raw
  if m.isEmpty then raw else m

/-- Python `str.split()` (split on whitespace runs, no empty fields),
accumulator-based: `acc` is the reversed current word. -/
def pySplitAux : List Char → List Char → List (List Char)
  | [], acc => if acc.isEmpty then [] else [acc.reverse]
  | c :: rest, acc =>
      if isPyWS c then
        if acc.isEmpty then pySplitAux rest [] else acc.reverse :: pySplitAux rest []
      else pySplitAux rest (c :: acc)

def pySplitL (l : List Char) : List (List Char) := pySplitAux l []

/-- `' '.join` on code points. -/
def joinSpaceL : List (List Char) → List Char
  | [] => []
  | [l] => l
  | l :: ls => l ++ ' ' :: joinSpaceL ls

/-- `' '.join(text.split())`: the whitespace collapsing that
`textwrap.shorten` always performs first. -/
def collapseL (l : List Char) : List Char := joinSpaceL (pySplitL l)

/-- The greedy fill of `TextWrapper._wrap_chunks` with `max_lines=1` and
placeholder `"…"`, at word granularity: keep the longest word prefix whose
space-joined length leaves room for the one-character placeholder within
width 180.  `len` is the joined length of `acc`. -/
def takeFit : List (List Char) → List (List Char) → Nat → List (List Char)
  | [], acc, _ => acc
  | w :: rest, acc, len =>
      let len' := if acc.isEmpty then w.length else len + 1 + w.length
      if len' + 1 ≤ 180 then takeFit rest (acc ++ [w]) len' else acc

/-- `textwrap.shorten(text, width=180, placeholder="…")`.  Word boundaries
are whitespace only: the sub-word break points TextWrapper introduces at
hyphens and when breaking words longer than the width never survive into
`shorten`'s single output line (any partial word makes the line exactly 180
wide, leaving no room for the placeholder, so it is dropped again), except
that a truncation can end at a trailing hyphen inside a word; that sub-word
refinement is not modelled. -/
def pyShortenL (text : List Char) : List Char :=
  let words := pySplitL text
  let collapsed := joinSpaceL words
  if collapsed.length ≤ 180 then collapsed
  else
    let kept := takeFit words [] 0
    if kept.isEmpty then ['…'] else joinSpaceL kept ++ ['…']

example : pyShortenL "a  b".data = "a b".data := by decide
example : pyShortenL "hello world".data = "hello world".data := by decide

/-- Building one Issue dictionary from a `testcase`'s attributes and its
failure `message` attribute (the body of the `for tc in ...` loop of
`parse_junit`, lines 60-114 of the script). -/
def extractIssue (suiteName tcName time msgAttr : String) : Issue :=
  let raw := pyStripL msgAttr.data
  { suite := suiteName
    endpoint := tcName
    time := time
    msg := ⟨processedMsg raw⟩
    msg_short := ⟨pyShortenL (processedMsg raw)⟩
    status := ⟨(findStatusAux raw).getD []⟩
    kind := ⟨((findKindAux raw).map pyStripL).getD []⟩
    curl := ⟨(stripLines raw).curl⟩ }

/-- A `failure` child element; `message` is its optional attribute. -/
structure FailureElem where
  message : Option String
deriving Repr, DecidableEq

/-- A `testcase` element with its optional `name` and `time` attributes and
its `failure` children (`tc.find("failure")` takes the first). -/
structure TestcaseElem where
  name : Option String
  time : Option String
  failures : List FailureElem
deriving Repr, DecidableEq

/-- A `testsuite` element.  Children of the root that are not `testsuite`
elements, and children of a `testsuite` that are not `testcase` elements,
are invisible to the script (`findall` filters by tag), so the model omits
them. -/
structure TestsuiteElem where
  name : Option String
  testcases : List TestcaseElem
deriving Repr, DecidableEq

/-- `parse_junit`, lines 45-115 of the script, over an already-parsed XML
root (the `testsuite` elements in document order). -/
def parse_junit (suites : List TestsuiteElem) : List Issue :=
  suites.foldl
    (fun acc ts =>
      ts.testcases.foldl
        (fun acc2 tc =>
          match tc.failures.head? with
          | none => acc2
          | some f =>
              acc2 ++ [extractIssue (ts.name.getD "") (tc.name.getD "")
                        (tc.time.getD "") (f.message.getD "")])
        acc)
    []

-- the round-trip scenario of spec §8 as a sanity check of the extractor
example :
    parse_junit [⟨some "API Tests",
      [⟨some "GET /users [500] - Server error", some "0.1",
        [⟨some "[500] - Internal error\n\nReproduce with:\n\ncurl -X GET https://api.example.com/users"⟩]⟩]⟩] =
    [{ suite := "API Tests", endpoint := "GET /users [500] - Server error",
       time := "0.1", msg := "[500] - Internal error",
       msg_short := "[500] - Internal error", status := "500",
       kind := "Internal error",
       curl := "curl -X GET https://api.example.com/users" }] := by decide

/-- The characters `URL_RE`'s tail class `[^\s'\"]` accepts. -/
def urlChar (c : Char) : Bool := !isPyWS c && c.toNat != 0x27 && c.toNat != 0x22

/-- Try to match `r"https?://[^\s'\"]+"` at the head of the list (the `s?`
is greedy; a match needs at least one tail character). -/
def matchUrlAt (cs : List Char) : Option (List Char) :=
  match cs with
  | 'h' :: 't' :: 't' :: 'p' :: rest =>
      match rest with
      | 's' :: ':' :: '/' :: '/' :: rest2 =>
          let t := rest2.takeWhile urlChar
          if t.isEmpty then none else some ("https://".data ++ t)
      | ':' :: '/' :: '/' :: rest2 =>
          let t := rest2.takeWhile urlChar
          if t.isEmpty then none else some ("http://".data ++ t)
      | _ => none
  | _ => none

/-- `URL_RE.search`: the leftmost match of `r"https?://[^\s'\"]+"`. -/
def findUrlAux : List Char → Option (List Char)
  | [] => none
  | c :: rest =>
      match matchUrlAt (c :: rest) with
      | some u => some u
      | none => findUrlAux rest

/-- ASCII hexadecimal digits, the character class `ipaddress` permits in
IPv6 hextets and IPvFuture addresses. -/
def isHexDigitA (c : Char) : Bool :=
  (0x30 ≤ c.toNat && c.toNat ≤ 0x39) || (0x41 ≤ c.toNat && c.toNat ≤ 0x46) ||
  (0x61 ≤ c.toNat && c.toNat ≤ 0x66)

/-- Python `str.split(sep)` for a one-character separator: empty fields
are kept (`"".split(sep) == [""]`). -/
def splitOnAux (sep : Char) : List Char → List Char → List (List Char)
  | [], acc => [acc.reverse]
  | c :: rest, acc =>
      if c = sep then acc.reverse :: splitOnAux sep rest []
      else splitOnAux sep rest (c :: acc)

def splitOnC (sep : Char) (l : List Char) : List (List Char) := splitOnAux sep l []

/-- `ipaddress._BaseV4._parse_octet`: nonempty, ASCII digits only, at most
3 characters, no leading zero (except `"0"` itself), value at most 255. -/
def validOctet (o : List Char) : Bool :=
  !o.isEmpty && o.all isAsciiDigit && o.length ≤ 3 &&
  (o == ['0'] || o.headD '0' != '0') &&
  o.foldl (fun a c => a * 10 + (c.toNat - 0x30)) 0 ≤ 255

/-- `IPv4Address` string validity: exactly four valid octets. -/
def validIPv4 (s : List Char) : Bool :=
  let os := splitOnC '.' s
  os.length == 4 && os.all validOctet

/-- `ipaddress._BaseV6._parse_hextet`: 1 to 4 ASCII hex digits. -/
def validHextet (h : List Char) : Bool :=
  !h.isEmpty && h.all isHexDigitA && h.length ≤ 4

/-- The colon-part analysis of `_BaseV6._ip_int_from_string` (validity
only): at most one interior empty part (the `::` compression), an empty
endpoint only next to the compression, a part budget of 8 hextets with at
least one compressed, and every used part a valid hextet.  `parts` already
has an IPv4-style suffix replaced by two synthetic hextets. -/
def validColonParts (parts : List (List Char)) : Bool :=
  let n := parts.length
  let interior := (parts.drop 1).dropLast
  let empties := (interior.filter (fun p => p.isEmpty)).length
  if 2 ≤ empties then false
  else if empties == 1 then
    let skip := 1 + interior.findIdx (fun p => p.isEmpty)
    let hi? : Option Nat :=
      if (parts.headD []).isEmpty then (if skip = 1 then some 0 else none)
      else some skip
    let lo? : Option Nat :=
      if (parts.getLastD []).isEmpty then (if skip = n - 2 then some 0 else none)
      else some (n - skip - 1)
    match hi?, lo? with
    | some h, some l =>
        h + l ≤ 7 &&
        (parts.take h).all validHextet && (parts.drop (n - l)).all validHextet
    | _, _ => false
  else
    n == 8 && parts.all validHextet

/-- `IPv6Address` string validity (`_split_scope_id` plus
`_ip_int_from_string`): optional nonempty `%scope` suffix without a
further `%`, at least two colons, an optional IPv4-style last part, at
most 9 parts, and the `::` rules of `validColonParts`. -/
def validIPv6 (s : List Char) : Bool :=
  if s.contains '/' then false
  else
    let ps := splitOnC '%' s
    if 3 ≤ ps.length then false
    else if ps.length == 2 && (ps.getD 1 []).isEmpty then false
    else
      let addr := ps.headD []
      if addr.isEmpty then false
      else
        let parts := splitOnC ':' addr
        if parts.length < 3 then false
        else
          let lastP := parts.getLastD []
          if lastP.contains '.' then
            if validIPv4 lastP then
              let parts2 := parts.dropLast ++ [['0'], ['0']]
              if 10 ≤ parts2.length then false else validColonParts parts2
            else false
          else if 10 ≤ parts.length then false
          else validColonParts parts

/-- `urllib.parse._check_bracketed_host`, CPython ≥ 3.11: a bracketed host
starting with `'v'` must match `v[hex]+\.` followed by at least one more
character (an RFC 3986 IPvFuture shape); anything else must be a valid
IPv6 address — a valid IPv4 address in brackets also raises. -/
def validBracketedHost (h : List Char) : Bool :=
  match h with
  | 'v' :: rest =>
      let hx := rest.takeWhile isHexDigitA
      let r2 := rest.dropWhile isHexDigitA
      !hx.isEmpty && r2.headD ' ' == '.' && 2 ≤ r2.length
  | _ => !validIPv4 h && validIPv6 h

/-- `urlparse(url)` followed by `f"{parsed.scheme}://{parsed.netloc}"` for
a string matched by `URL_RE`, as `none` when `urlparse` raises
`ValueError`.  For such strings (they start with their lowercase scheme
and contain no whitespace, tab, CR or LF, so `urlsplit`'s lstrip and
unsafe-byte removal are no-ops) the scheme is everything before the first
`':'` and the netloc everything after `"//"` up to the first `'/'`, `'?'`
or `'#'`; `urlsplit` raises on a netloc with an unbalanced `'['`/`']'` and
(CPython ≥ 3.11; ≤ 3.10 accepted any balanced bracket content) on a
balanced bracketed host that is neither a valid IPv6 address nor an
IPvFuture.  Not modelled: the NFKC check `_checknetloc` performs on
non-ASCII netlocs (a no-op for ASCII netlocs). -/
def pyUrlBase? (url : List Char) : Option (List Char) :=
  let scheme := url.takeWhile (fun c => c.toNat != 0x3a)
  let rest := (url.dropWhile (fun c => c.toNat != 0x3a)).drop 3
  let netloc :=
    rest.takeWhile (fun c => c.toNat != 0x2f && c.toNat != 0x3f && c.toNat != 0x23)
  let hasL := netloc.contains '['
  let hasR := netloc.contains ']'
  if (hasL && !hasR) || (hasR && !hasL) then none
  else if hasL && hasR then
    let bh := ((netloc.dropWhile (fun c => c.toNat != 0x5b)).drop 1).takeWhile
      (fun c => c.toNat != 0x5d)
    if validBracketedHost bh then some (scheme ++ ':' :: '/' :: '/' :: netloc)
    else none
  else some (scheme ++ ':' :: '/' :: '/' :: netloc)

/-- One `try: ... except: pass` arm of `extract_base_url`: the first
`URL_RE` match of the string, if any, run through `urlparse`; `none` both
when nothing matches and when `urlparse` raises (the `except` path). -/
def urlBaseOf (s : String) : Option (List Char) :=
  if s.data.isEmpty then none
  else
    match findUrlAux s.data with
    | some u => pyUrlBase? u
    | none => none

/-- `extract_base_url` (lines 15-42 of the script): the curl command is
tried first; on no match or a `urlparse` failure it falls through to the
suite name, and then to the empty string. -/
def extract_base_url (curl_cmd suite_name : String) : String :=
  match urlBaseOf curl_cmd with
  | some b => ⟨b⟩
  | none =>
      match urlBaseOf suite_name with
      | some b => ⟨b⟩
      | none => ""

example : extract_base_url "curl -X GET https://api.example.com/users?q=1" "" =
    "https://api.example.com" := by decide
example : extract_base_url "" "suite http://h:8080/x" = "http://h:8080" := by decide
example : extract_base_url "no url here" "none either" = "" := by decide

-- the `ValueError` paths, checked against CPython 3.11:
-- unbalanced bracket in the netloc falls back to the suite name / ""
example : pyUrlBase? "http://[abc".data = none := by decide
example : extract_base_url "curl -X GET http://[abc" "suite https://ok.host/x" =
    "https://ok.host" := by decide
example : extract_base_url "curl -X GET http://[abc" "" = "" := by decide
example : pyUrlBase? "http://a]b".data = none := by decide
-- balanced brackets: valid IPv6 (with port or scope), IPvFuture pass
example : pyUrlBase? "http://[::1]:80/x".data = some "http://[::1]:80".data := by decide
example : pyUrlBase? "http://[::ffff:1.2.3.4]/p".data =
    some "http://[::ffff:1.2.3.4]".data := by decide
example : pyUrlBase? "http://[::1%25eth0]".data = some "http://[::1%25eth0]".data := by
  decide
example : pyUrlBase? "http://[v1a.x]/y".data = some "http://[v1a.x]".data := by decide
-- balanced brackets around a non-IPv6 host raise
example : pyUrlBase? "http://[abc]".data = none := by decide
example : pyUrlBase? "http://[vz.x]".data = none := by decide
example : pyUrlBase? "http://[1.2.3.4]".data = none := by decide
example : pyUrlBase? "http://[:::]".data = none := by decide
example : pyUrlBase? "http://[1:2:3:4:5:6:7:8]".data =
    some "http://[1:2:3:4:5:6:7:8]".data := by decide
example : pyUrlBase? "http://[1:2:3:4:5:6:7:8:9]".data = none := by decide
-- further vectors checked one-by-one against CPython 3.11 urlparse:
-- `::` compression bookkeeping
example : pyUrlBase? "http://[:1::]".data = none := by decide
example : pyUrlBase? "http://[1:::]".data = none := by decide
example : pyUrlBase? "http://[1::2::3]".data = none := by decide
example : pyUrlBase? "http://[1:2:3:4:5:6:7]".data = none := by decide
example : pyUrlBase? "http://[::1:2:3:4:5:6:7]".data =
    some "http://[::1:2:3:4:5:6:7]".data := by decide
example : pyUrlBase? "http://[::1:2:3:4:5:6:7:8]".data = none := by decide
example : pyUrlBase? "http://[0:0:0:0:0:0:0:0]".data =
    some "http://[0:0:0:0:0:0:0:0]".data := by decide
example : pyUrlBase? "http://[12345::1]".data = none := by decide
example : pyUrlBase? "http://[00000::1]".data = none := by decide
-- embedded IPv4 suffix
example : pyUrlBase? "http://[1:2:3:4:5:6:1.2.3.4]".data =
    some "http://[1:2:3:4:5:6:1.2.3.4]".data := by decide
example : pyUrlBase? "http://[1:2:3:4:5:6:7:1.2.3.4]".data = none := by decide
example : pyUrlBase? "http://[1:2::3:4.5.6.7]".data =
    some "http://[1:2::3:4.5.6.7]".data := by decide
example : pyUrlBase? "http://[::256.1.1.1]".data = none := by decide
example : pyUrlBase? "http://[::01.2.3.4]".data = none := by decide
example : pyUrlBase? "http://[::ffff:1.2.3.04]".data = none := by decide
-- zone identifiers
example : pyUrlBase? "http://[fe80::1%eth0]".data =
    some "http://[fe80::1%eth0]".data := by decide
example : pyUrlBase? "http://[fe80::1%]".data = none := by decide
example : pyUrlBase? "http://[fe80::1%a%b]".data = none := by decide
-- IPvFuture shape
example : pyUrlBase? "http://[V1.x]".data = none := by decide
example : pyUrlBase? "http://[v1.]".data = none := by decide
-- stray and degenerate brackets
example : pyUrlBase? "http://x]y[z".data = none := by decide
example : pyUrlBase? "http://a[b]c".data = none := by decide
example : pyUrlBase? "http://[]".data = none := by decide
example : pyUrlBase? "http://[.]".data = none := by decide
example : pyUrlBase? "http://[1.2.3.4.5]".data = none := by decide

/-- Lexicographic comparison of code-point lists; Python's `<` on `str`. -/
def listLtB : List Char → List Char → Bool
  | [], [] => false
  | [], _ :: _ => true
  | _ :: _, [] => false
  | a :: as, b :: bs =>
      if a.toNat < b.toNat then true
      else if b.toNat < a.toNat then false
      else listLtB as bs

def strLtB (a b : String) : Bool := listLtB a.data b.data

/-- Insert into a strictly sorted duplicate-free list, keeping it so; the
extensional model of Python's `sorted(set(...))` built incrementally. -/
def insertSortedSet (x : String) : List String → List String
  | [] => [x]
  | y :: ys =>
      if strLtB x y then x :: y :: ys
      else if x = y then y :: ys
      else y :: insertSortedSet x ys

/-- The `base_urls` value `make_html` computes (lines 140-146 of the
script): the deduplicated, sorted base URLs of all Issues, skipping empty
extraction results. -/
def base_urls (issues : List Issue) : List String :=
  issues.foldl
    (fun s i =>
      let b := extract_base_url i.curl i.suite
      if b = "" then s else insertSortedSet b s)
    []

/-- An exact decimal number `m / 10 ^ k`; the value of a finite Python
float literal.  Comparisons on these rationals are decidable and agree
with IEEE comparison of the corresponding (rounded) floats whenever the
latter distinguishes the operands. -/
structure DecNum where
  m : Int
  k : Nat
deriving Repr, DecidableEq

def decLeB (a b : DecNum) : Bool := a.m * (10 : Int) ^ b.k ≤ b.m * (10 : Int) ^ a.k

def decLtB (a b : DecNum) : Bool := a.m * (10 : Int) ^ b.k < b.m * (10 : Int) ^ a.k

/-- Combine an unsigned mantissa `mant / 10 ^ k` with a decimal exponent. -/
def mkDec (mant : Nat) (k : Nat) (exp : Int) : DecNum :=
  let e : Int := exp - (k : Int)
  if 0 ≤ e then ⟨(mant : Int) * (10 : Int) ^ e.toNat, 0⟩ else ⟨(mant : Int), (-e).toNat⟩

/-- The optional exponent suffix of a float literal, given the unsigned
mantissa parsed so far; the whole remaining input must be consumed. -/
def parseExpPart (mant : Nat) (k : Nat) : List Char → Option DecNum
  | [] => some (mkDec mant k 0)
  | e :: rest =>
      if e = 'e' ∨ e = 'E' then
        let signed : Bool × List Char :=
          match rest with
          | '+' :: r => (false, r)
          | '-' :: r => (true, r)
          | r => (false, r)
        let ds := signed.2.takeWhile isAsciiDigit
        let r2 := signed.2.dropWhile isAsciiDigit
        if ds.isEmpty || !r2.isEmpty then none
        else
          let ev : Int := (ds.foldl (fun a c => a * 10 + (c.toNat - 0x30)) 0 : Nat)
          some (mkDec mant k (if signed.1 then -ev else ev))
      else none

/-- An unsigned float literal: `digits [. digits] [exp]` or `. digits [exp]`. -/
def pyFloatCore (cs : List Char) : Option DecNum :=
  let ip := cs.takeWhile isAsciiDigit
  let r1 := cs.dropWhile isAsciiDigit
  match r1 with
  | '.' :: r2 =>
      let fp := r2.takeWhile isAsciiDigit
      let r3 := r2.dropWhile isAsciiDigit
      if ip.isEmpty && fp.isEmpty then none
      else parseExpPart ((ip ++ fp).foldl (fun a c => a * 10 + (c.toNat - 0x30)) 0) fp.length r3
  | _ => if ip.isEmpty then none
         else parseExpPart (ip.foldl (fun a c => a * 10 + (c.toNat - 0x30)) 0) 0 r1

/-- The Unicode `Nd` digit ranges with their values (the same ranges as
`isPyDigit`); `float()` maps these to ASCII digits before parsing
(`_PyUnicode_TransformDecimalAndSpaceToASCII`).  Each range is `lo`/`hi`
with value `(n - lo) % 10` (the mathematical-digit block
`0x1d7ce..0x1d7ff` is five consecutive 0-9 runs). -/
def ndRanges : List (Nat × Nat) :=
  [(0x30, 0x39), (0x660, 0x669), (0x6f0, 0x6f9), (0x7c0, 0x7c9),
   (0x966, 0x96f), (0x9e6, 0x9ef), (0xa66, 0xa6f), (0xae6, 0xaef),
   (0xb66, 0xb6f), (0xbe6, 0xbef), (0xc66, 0xc6f), (0xce6, 0xcef),
   (0xd66, 0xd6f), (0xde6, 0xdef), (0xe50, 0xe59), (0xed0, 0xed9),
   (0xf20, 0xf29), (0x1040, 0x1049), (0x1090, 0x1099), (0x17e0, 0x17e9),
   (0x1810, 0x1819), (0x1946, 0x194f), (0x19d0, 0x19d9), (0x1a80, 0x1a89),
   (0x1a90, 0x1a99), (0x1b50, 0x1b59), (0x1bb0, 0x1bb9), (0x1c40, 0x1c49),
   (0x1c50, 0x1c59), (0xa620, 0xa629), (0xa8d0, 0xa8d9), (0xa900, 0xa909),
   (0xa9d0, 0xa9d9), (0xa9f0, 0xa9f9), (0xaa50, 0xaa59), (0xabf0, 0xabf9),
   (0xff10, 0xff19), (0x104a0, 0x104a9), (0x10d30, 0x10d39),
   (0x11066, 0x1106f), (0x110f0, 0x110f9), (0x11136, 0x1113f),
   (0x111d0, 0x111d9), (0x112f0, 0x112f9), (0x11450, 0x11459),
   (0x114d0, 0x114d9), (0x11650, 0x11659), (0x116c0, 0x116c9),
   (0x11730, 0x11739), (0x118e0, 0x118e9), (0x11950, 0x11959),
   (0x11c50, 0x11c59), (0x11d50, 0x11d59), (0x11da0, 0x11da9),
   (0x16a60, 0x16a69), (0x16b50, 0x16b59), (0x1d7ce, 0x1d7ff),
   (0x1e140, 0x1e149), (0x1e2f0, 0x1e2f9), (0x1e950, 0x1e959),
   (0x1fbf0, 0x1fbf9)]

def ndVal? (c : Char) : Option Nat :=
  ndRanges.findSome? (fun p =>
    if p.1 ≤ c.toNat && c.toNat ≤ p.2 then some ((c.toNat - p.1) % 10) else none)

/-- The per-character normalization `float()` applies to a `str` argument:
Unicode whitespace becomes a space and `Nd` digits become ASCII digits.
(CPython turns any other non-ASCII character into `'?'`; this model keeps
it instead — both fail the numeric grammar identically, so the results
agree.) -/
def floatNormChar (c : Char) : Char :=
  if isPyWS c then ' '
  else
    match ndVal? c with
    | some v => Char.ofNat (0x30 + v)
    | none => c

/-- The value of one Python float: a finite exact decimal, a signed
infinity, or NaN. -/
inductive PyFloat where
  | finite (d : DecNum)
  | inf (neg : Bool)
  | nan
deriving Repr, DecidableEq

def notNanB : PyFloat → Bool
  | .nan => false
  | _ => true

/-- IEEE `<` on these values: NaN is incomparable, `-inf` below and `+inf`
above every number. -/
def pyLtB : PyFloat → PyFloat → Bool
  | .nan, _ => false
  | _, .nan => false
  | .inf n1, .inf n2 => n1 && !n2
  | .inf n1, .finite _ => n1
  | .finite _, .inf n2 => !n2
  | .finite a, .finite b => decLtB a b

/-- IEEE `≤` (false whenever either side is NaN). -/
def pyLeB : PyFloat → PyFloat → Bool
  | .nan, _ => false
  | _, .nan => false
  | .inf n1, .inf n2 => n1 || !n2
  | .inf n1, .finite _ => n1
  | .finite _, .inf n2 => !n2
  | .finite a, .finite b => decLeB a b

/-- PEP 515 underscore grouping as `float()` validates it: every `'_'`
must sit between two (already normalized) ASCII digits. -/
def underscoresOkAux : Option Char → List Char → Bool
  | _, [] => true
  | prev, c :: rest =>
      if c = '_' then
        (match prev with | some p => isAsciiDigit p | none => false) &&
        (match rest.head? with | some nx => isAsciiDigit nx | none => false) &&
        underscoresOkAux (some c) rest
      else underscoresOkAux (some c) rest

def underscoresOk (l : List Char) : Bool := underscoresOkAux none l

/-- Python `float(s)`.  The normalization pass, surrounding whitespace, a
leading sign, the case-insensitive literals `inf`/`infinity`/`nan`, and
underscore grouping are handled as in CPython; finite literal values are
kept as exact decimals.  Not modelled: the rounding of finite literals to
IEEE doubles (in CPython an over-range exponent like `1e400` rounds to
`inf` and `1e-400` to `0.0`; this model keeps the exact value). -/
def pyFloat? (s : String) : Option PyFloat :=
  let cs := pyStripL (s.data.map floatNormChar)
  let signBody : Bool × List Char :=
    match cs with
    | '+' :: rest => (false, rest)
    | '-' :: rest => (true, rest)
    | rest => (false, rest)
  let neg := signBody.1
  let body := signBody.2
  let lb := lowerL body
  if lb = "inf".data ∨ lb = "infinity".data then some (.inf neg)
  else if lb = "nan".data then some .nan
  else if !underscoresOk body then none
  else
    match pyFloatCore (body.filter (fun c => c.toNat != 0x5f)) with
    | some d => some (.finite (if neg then ⟨-d.m, d.k⟩ else d))
    | none => none

example : pyFloat? "0.12" = some (.finite ⟨12, 2⟩) := by decide
example : pyFloat? " 3.4 " = some (.finite ⟨34, 1⟩) := by decide
example : pyFloat? "bad" = none := by decide
example : pyFloat? "-1.5e2" = some (.finite ⟨-150, 0⟩) := by decide
example : pyFloat? "2e-3" = some (.finite ⟨2, 3⟩) := by decide
example : pyFloat? "" = none := by decide
example : pyFloat? "1." = some (.finite ⟨1, 0⟩) := by decide
example : pyFloat? ".5" = some (.finite ⟨5, 1⟩) := by decide
example : pyFloat? "1e" = none := by decide
-- checked against CPython: non-finite literals, underscores, Nd digits
example : pyFloat? "inf" = some (.inf false) := by decide
example : pyFloat? "-INF" = some (.inf true) := by decide
example : pyFloat? "Infinity" = some (.inf false) := by decide
example : pyFloat? "infx" = none := by decide
example : pyFloat? "nan" = some .nan := by decide
example : pyFloat? "-nan" = some .nan := by decide
example : pyFloat? "NAN" = some .nan := by decide
example : pyFloat? "1_0" = some (.finite ⟨10, 0⟩) := by decide
example : pyFloat? "1__0" = none := by decide
example : pyFloat? "_1" = none := by decide
example : pyFloat? "1_" = none := by decide
example : pyFloat? "1_.5" = none := by decide
example : pyFloat? "1e_5" = none := by decide
example : pyFloat? "1_0.5_5e1_0" = some (.finite ⟨105500000000, 0⟩) := by decide
example : pyFloat? "٣" = some (.finite ⟨3, 0⟩) := by decide
example : pyFloat? "١٢.٥" = some (.finite ⟨125, 1⟩) := by decide
example : pyFloat? "١_٢" = some (.finite ⟨12, 0⟩) := by decide
example : pyFloat? "+ 1.5" = none := by decide

/-- The parseable `time` values of the Issues, in order (the `times` list
of `make_html`, lines 148-155). -/
def parsedTimes (issues : List Issue) : List PyFloat :=
  issues.filterMap (fun i => pyFloat? i.time)

/-- `min(times) if times else 0.0`.  Python's `min` keeps the candidate
unless the next item compares strictly below it — so it keeps the first
occurrence among equals and its result is position-dependent when NaN is
present — as does this fold. -/
def min_time (issues : List Issue) : PyFloat :=
  match parsedTimes issues with
  | [] => .finite ⟨0, 0⟩
  | t :: ts => ts.foldl (fun acc x => if pyLtB x acc then x else acc) t

/-- `max(times) if times else 1.0`. -/
def max_time (issues : List Issue) : PyFloat :=
  match parsedTimes issues with
  | [] => .finite ⟨1, 0⟩
  | t :: ts => ts.foldl (fun acc x => if pyLtB acc x then x else acc) t

/-- The data `make_html` derives from the Issue sequence and hands to the
template (summary statistics aside from the raw HTML strings). -/
structure RenderContext where
  issues : List Issue
  baseUrls : List String
  minT : PyFloat
  maxT : PyFloat
deriving Repr, DecidableEq

def buildContext (issues : List Issue) : RenderContext :=
  ⟨issues, base_urls issues, min_time issues, max_time issues⟩

/-- The `main` pipeline after argument parsing: `ET.parse` either raises
(modelled as `Except.error`, which propagates) or yields a root; only on
success are Issues extracted, the context built and the output produced.
The returned context stands for the written HTML file: an `error` result
means no file content was ever computed or written. -/
def runPipeline (parsed : Except String (List TestsuiteElem)) :
    Except String RenderContext :=
  match parsed with
  | .error e => .error e
  | .ok root => .ok (buildContext (parse_junit root))

/-- Python's `sub in s` substring test, used to state that a status code
matched inside the reproduction block does not survive into `message`. -/
def containsSubL (sub : List Char) : List Char → Bool
  | [] => sub.isEmpty
  | c :: rest => startsWithL (c :: rest) sub || containsSubL sub rest

/-! ## Library of facts about the string model -/

theorem dropWhile_dropWhile (p : Char → Bool) (l : List Char) :
    (l.dropWhile p).dropWhile p = l.dropWhile p := by
  induction l with
  | nil => rfl
  | cons c rest ih =>
      by_cases h : p c
      · simp [List.dropWhile_cons, h, ih]
      · simp [List.dropWhile_cons, h]

theorem stripL_idem (l : List Char) : stripL (stripL l) = stripL l :=
  dropWhile_dropWhile _ _

theorem stripR_idem (l : List Char) : stripR (stripR l) = stripR l := by
  simp [stripR, dropWhile_dropWhile]

theorem stripL_cons (c : Char) (l : List Char) :
    stripL (c :: l) = if isPyWS c then stripL l else c :: l := by
  by_cases h : isPyWS c <;> simp [stripL, List.dropWhile_cons, h]

theorem stripR_append (xs ys : List Char) :
    stripR (xs ++ ys) = if (stripR ys).isEmpty then stripR xs else xs ++ stripR ys := by
  simp only [stripR, List.reverse_append, List.dropWhile_append, List.isEmpty_iff,
    List.reverse_eq_nil_iff]
  by_cases h : ys.reverse.dropWhile isPyWS = []
  · simp [h]
  · simp [h, List.reverse_append]

theorem stripR_cons (c : Char) (l : List Char) :
    stripR (c :: l) =
      if (stripR l).isEmpty then (if isPyWS c then [] else [c]) else c :: stripR l := by
  have : c :: l = [c] ++ l := rfl
  rw [this, stripR_append]
  by_cases h : (stripR l).isEmpty
  · by_cases hc : isPyWS c <;> simp [h, stripR, List.dropWhile_cons, hc]
  · simp [h]

theorem stripLR_comm (l : List Char) : stripL (stripR l) = stripR (stripL l) := by
  induction l with
  | nil => rfl
  | cons c rest ih =>
      rw [stripR_cons, stripL_cons]
      by_cases hc : isPyWS c = true
      · rw [if_pos hc, if_pos hc, ← ih]
        by_cases h : (stripR rest).isEmpty = true
        · rw [List.isEmpty_iff] at h
          simp [h]
        · rw [if_neg h, stripL_cons, if_pos hc]
      · rw [if_neg hc, if_neg hc]
        by_cases h : (stripR rest).isEmpty = true
        · rw [if_pos h, stripR_cons, h, if_pos rfl, if_neg hc, stripL_cons, if_neg hc]
        · rw [if_neg h, stripL_cons, if_neg hc, stripR_cons, if_neg h]

theorem pyStripL_stripL (l : List Char) : pyStripL (stripL l) = pyStripL l := by
  simp [pyStripL, stripL_idem]

theorem pyStripL_stripR (l : List Char) : pyStripL (stripR l) = pyStripL l := by
  simp only [pyStripL]
  rw [stripLR_comm, stripR_idem]

theorem pyStripL_idem (l : List Char) : pyStripL (pyStripL l) = pyStripL l := by
  simp only [pyStripL]
  rw [stripLR_comm, stripL_idem, stripR_idem]

theorem mem_of_mem_stripL {c : Char} {l : List Char} (h : c ∈ stripL l) : c ∈ l :=
  (List.dropWhile_sublist _).mem h

theorem mem_of_mem_stripR {c : Char} {l : List Char} (h : c ∈ stripR l) : c ∈ l := by
  simp only [stripR, List.mem_reverse] at h
  have := (List.dropWhile_sublist (l := l.reverse) isPyWS).mem h
  simpa using this

theorem mem_of_mem_pyStripL {c : Char} {l : List Char} (h : c ∈ pyStripL l) : c ∈ l :=
  mem_of_mem_stripL (mem_of_mem_stripR h)

theorem stripL_eq_nil_of_all_ws {l : List Char} (h : ∀ c ∈ l, isPyWS c = true) :
    stripL l = [] := by
  simp only [stripL, List.dropWhile_eq_nil_iff]
  exact h

theorem pyStripL_eq_nil_of_stripR {l : List Char} (h : stripR l = []) :
    pyStripL l = [] := by
  rw [pyStripL, ← stripLR_comm, h]
  rfl

theorem splitLinesAux_no_boundary :
    ∀ (cs acc : List Char), (∀ c ∈ acc, isLineB c = false) →
      ∀ x ∈ splitLinesAux cs acc, ∀ c ∈ x, isLineB c = false := by
  intro cs acc
  induction cs, acc using splitLinesAux.induct with
  | case1 acc =>
      intro h x hx c hc
      simp only [splitLinesAux, List.mem_singleton] at hx
      subst hx
      exact h c (List.mem_reverse.mp hc)
  | case2 rest acc ih =>
      intro h x hx c hc
      simp only [splitLinesAux, List.mem_cons] at hx
      rcases hx with rfl | hx
      · exact h c (List.mem_reverse.mp hc)
      · rcases hif : rest.isEmpty with _ | _ <;> rw [hif] at hx
        · exact ih (by intro c hc; cases hc) x (by simpa using hx) c hc
        · simp at hx
  | case3 c0 rest acc hnb hB ih =>
      intro h x hx c hc
      rw [splitLinesAux] at hx
      · rw [if_pos hB] at hx
        rcases List.mem_cons.mp hx with rfl | hx2
        · exact h c (List.mem_reverse.mp hc)
        · rcases hif : rest.isEmpty with _ | _ <;> rw [hif] at hx2
          · exact ih (by intro c hc; cases hc) x (by simpa using hx2) c hc
          · simp at hx2
      · exact hnb
  | case4 c0 rest acc hnb hB ih =>
      intro h x hx c hc
      rw [splitLinesAux] at hx
      · rw [if_neg (by simp [hB])] at hx
        refine ih ?_ x hx c hc
        intro d hd
        rcases List.mem_cons.mp hd with rfl | hd2
        · simpa using hB
        · exact h d hd2
      · exact hnb

/-- Lines produced by `splitlines` contain no line-boundary characters. -/
theorem splitLinesL_no_boundary {l : List Char} :
    ∀ x ∈ splitLinesL l, ∀ c ∈ x, isLineB c = false := by
  intro x hx
  unfold splitLinesL at hx
  rcases he : l.isEmpty with _ | _ <;> rw [he] at hx
  · exact splitLinesAux_no_boundary l [] (by intro c hc; cases hc) x (by simpa using hx)
  · simp at hx

/-- On a string whose only boundary character is `'\n'`, every
`splitlines` line is also a `splitNL` line. -/
theorem mem_splitNLAux_of_mem_splitLinesAux :
    ∀ (cs acc : List Char), (∀ c ∈ cs, isLineB c = true → c = '\n') →
      ∀ x ∈ splitLinesAux cs acc, x ∈ splitNLAux cs acc := by
  intro cs acc
  induction cs, acc using splitLinesAux.induct with
  | case1 acc =>
      intro _ x hx
      simpa [splitLinesAux, splitNLAux] using hx
  | case2 rest acc ih =>
      intro h x hx
      exfalso
      have : ('\r' : Char) = '\n' := h '\r' (by simp) (by decide)
      exact absurd this (by decide)
  | case3 c0 rest acc hnb hB ih =>
      intro h x hx
      have hc0 : c0 = '\n' := h c0 (by simp) hB
      subst hc0
      rw [splitLinesAux] at hx
      · rw [if_pos hB] at hx
        simp only [splitNLAux, if_pos rfl]
        rcases List.mem_cons.mp hx with rfl | hx2
        · exact List.mem_cons_self _ _
        · rcases hif : rest.isEmpty with _ | _ <;> rw [hif] at hx2
          · exact List.mem_cons_of_mem _
              (ih (by intro c hc hbc; exact h c (by simp [hc]) hbc) x (by simpa using hx2))
          · simp at hx2
      · exact hnb
  | case4 c0 rest acc hnb hB ih =>
      intro h x hx
      have hc0 : ¬ c0 = '\n' := by
        intro hk
        subst hk
        exact hB (by decide)
      rw [splitLinesAux] at hx
      · rw [if_neg (by simp [hB])] at hx
        simp only [splitNLAux, if_neg hc0]
        exact ih (by intro c hc hbc; exact h c (by simp [hc]) hbc) x hx
      · exact hnb

theorem splitNLAux_no_nl {cs : List Char} (h : '\n' ∉ cs) :
    ∀ acc, splitNLAux cs acc = [acc.reverse ++ cs] := by
  induction cs with
  | nil => intro acc; simp [splitNLAux]
  | cons c rest ih =>
      intro acc
      have hc : ¬ c = '\n' := fun hk => h (hk ▸ List.mem_cons_self _ _)
      rw [splitNLAux, if_neg hc, ih (fun hk => h (List.mem_cons_of_mem _ hk))]
      simp

theorem splitNLAux_append_nl {l : List Char} (h : '\n' ∉ l) (t : List Char) :
    ∀ acc, splitNLAux (l ++ '\n' :: t) acc = (acc.reverse ++ l) :: splitNLAux t [] := by
  induction l with
  | nil => intro acc; simp [splitNLAux]
  | cons c rest ih =>
      intro acc
      have hc : ¬ c = '\n' := fun hk => h (hk ▸ List.mem_cons_self _ _)
      rw [List.cons_append, splitNLAux, if_neg hc,
        ih (fun hk => h (List.mem_cons_of_mem _ hk))]
      simp

theorem joinNLl_cons {ls : List (List Char)} (h : ls ≠ []) (l : List Char) :
    joinNLl (l :: ls) = l ++ '\n' :: joinNLl ls := by
  cases ls with
  | nil => exact absurd rfl h
  | cons a as => rfl

theorem joinNLl_concat {ls : List (List Char)} (h : ls ≠ []) (l : List Char) :
    joinNLl (ls ++ [l]) = joinNLl ls ++ '\n' :: l := by
  induction ls with
  | nil => exact absurd rfl h
  | cons a as ih =>
      cases as with
      | nil => rfl
      | cons b bs =>
          rw [List.cons_append, joinNLl_cons (by simp), joinNLl_cons (by simp),
            ih (by simp)]
          simp

/-- `splitNL` inverts `"\n".join` of newline-free lines. -/
theorem splitNL_joinNLl :
    ∀ {ls : List (List Char)}, ls ≠ [] → (∀ l ∈ ls, '\n' ∉ l) →
      splitNL (joinNLl ls) = ls := by
  intro ls
  induction ls with
  | nil => intro h; exact absurd rfl h
  | cons l ls ih =>
      intro _ h
      cases ls with
      | nil =>
          rw [splitNL, show joinNLl [l] = l from rfl,
            splitNLAux_no_nl (h l (List.mem_cons_self _ _))]
          simp
      | cons b bs =>
          rw [joinNLl_cons (by simp), splitNL,
            splitNLAux_append_nl (h l (List.mem_cons_self _ _))]
          have := ih (by simp) (fun x hx => h x (List.mem_cons_of_mem _ hx))
          rw [splitNL] at this
          rw [this]
          simp

theorem mem_joinNLl {c : Char} :
    ∀ {ls : List (List Char)}, c ∈ joinNLl ls → c = '\n' ∨ ∃ l ∈ ls, c ∈ l := by
  intro ls
  induction ls with
  | nil => intro h; cases h
  | cons l ls ih =>
      intro h
      cases ls with
      | nil =>
          right
          exact ⟨l, List.mem_cons_self _ _, h⟩
      | cons b bs =>
          rw [joinNLl_cons (by simp)] at h
          rcases List.mem_append.mp h with h1 | h2
          · exact Or.inr ⟨l, List.mem_cons_self _ _, h1⟩
          · rcases List.mem_cons.mp h2 with rfl | h3
            · exact Or.inl rfl
            · rcases ih h3 with h4 | ⟨x, hx, hcx⟩
              · exact Or.inl h4
              · exact Or.inr ⟨x, List.mem_cons_of_mem _ hx, hcx⟩

/-- Left-stripping a newline-join again yields a newline-join, of lines
each strip-equal to (and drawn from the characters of) an original line. -/
theorem stripL_joinNLl :
    ∀ (ls : List (List Char)), ls ≠ [] →
      ∃ ls2 : List (List Char), ls2 ≠ [] ∧
        stripL (joinNLl ls) = joinNLl ls2 ∧
        ∀ x ∈ ls2, ∃ l ∈ ls, pyStripL x = pyStripL l ∧ ∀ c ∈ x, c ∈ l := by
  intro ls
  induction ls with
  | nil => intro h; exact absurd rfl h
  | cons l ls ih =>
      intro _
      cases ls with
      | nil =>
          refine ⟨[stripL l], by simp, rfl, ?_⟩
          intro x hx
          rcases List.mem_singleton.mp hx with rfl
          exact ⟨l, List.mem_cons_self _ _, pyStripL_stripL l, fun c hc => mem_of_mem_stripL hc⟩
      | cons b bs =>
          rw [joinNLl_cons (by simp)]
          by_cases hcase : (stripL l).isEmpty = true
          · -- `l` is all whitespace and is consumed together with its newline
            rcases ih (by simp) with ⟨ls2, h1, h2, h3⟩
            refine ⟨ls2, h1, ?_, ?_⟩
            · rw [show stripL (l ++ '\n' :: joinNLl (b :: bs)) =
                    (l ++ '\n' :: joinNLl (b :: bs)).dropWhile isPyWS from rfl,
                List.dropWhile_append,
                show l.dropWhile isPyWS = stripL l from rfl, hcase, if_pos rfl,
                List.dropWhile_cons, if_pos (by decide : isPyWS '\n' = true)]
              exact h2
            · intro x hx
              rcases h3 x hx with ⟨m, hm, he, hsub⟩
              exact ⟨m, List.mem_cons_of_mem _ hm, he, hsub⟩
          · -- part of `l` survives: the first line becomes `stripL l`
            refine ⟨stripL l :: b :: bs, by simp, ?_, ?_⟩
            · rw [show joinNLl (stripL l :: b :: bs) =
                    stripL l ++ '\n' :: joinNLl (b :: bs) from joinNLl_cons (by simp) _,
                show stripL (l ++ '\n' :: joinNLl (b :: bs)) =
                    (l ++ '\n' :: joinNLl (b :: bs)).dropWhile isPyWS from rfl,
                List.dropWhile_append,
                show l.dropWhile isPyWS = stripL l from rfl,
                if_neg hcase]
            · intro x hx
              rcases List.mem_cons.mp hx with rfl | hx2
              · exact ⟨l, List.mem_cons_self _ _, pyStripL_stripL l,
                  fun c hc => mem_of_mem_stripL hc⟩
              · exact ⟨x, List.mem_cons_of_mem _ hx2, rfl, fun _ hc => hc⟩

/-- Right-stripping a newline-join, symmetrically. -/
theorem stripR_joinNLl :
    ∀ (ls : List (List Char)), ls ≠ [] →
      ∃ ls2 : List (List Char), ls2 ≠ [] ∧
        stripR (joinNLl ls) = joinNLl ls2 ∧
        ∀ x ∈ ls2, ∃ l ∈ ls, pyStripL x = pyStripL l ∧ ∀ c ∈ x, c ∈ l := by
  intro ls
  induction ls using List.reverseRecOn with
  | nil => intro h; exact absurd rfl h
  | append_singleton ls l ih =>
      intro _
      cases hls : ls with
      | nil =>
          refine ⟨[stripR l], by simp, rfl, ?_⟩
          intro x hx
          rcases List.mem_singleton.mp hx with rfl
          exact ⟨l, by simp, pyStripL_stripR l, fun c hc => mem_of_mem_stripR hc⟩
      | cons b bs =>
          rw [joinNLl_concat (by simp), stripR_append]
          have hnl : stripR ('\n' :: l) =
              if (stripR l).isEmpty then [] else '\n' :: stripR l := by
            rw [stripR_cons]
            by_cases h : (stripR l).isEmpty = true
            · rw [if_pos h, if_pos h, if_pos (by decide : isPyWS '\n' = true)]
            · rw [if_neg h, if_neg h]
          by_cases hcase : (stripR l).isEmpty = true
          · -- the last line strips away entirely, with its newline
            rw [hnl, if_pos hcase]
            rcases ih (by simp [hls]) with ⟨ls2, h1, h2, h3⟩
            rw [hls] at h2 h3
            refine ⟨ls2, h1, by rw [if_pos List.isEmpty_nil]; exact h2, ?_⟩
            intro x hx
            rcases h3 x hx with ⟨m, hm, he, hsub⟩
            exact ⟨m, List.mem_append_left _ hm, he, hsub⟩
          · -- part of the last line survives
            rw [hnl, if_neg hcase, if_neg (by simp)]
            refine ⟨(b :: bs) ++ [stripR l], by simp, ?_, ?_⟩
            · rw [joinNLl_concat (by simp)]
            · intro x hx
              rcases List.mem_append.mp hx with hx1 | hx2
              · exact ⟨x, List.mem_append_left _ hx1, rfl, fun _ hc => hc⟩
              · rcases List.mem_singleton.mp hx2 with rfl
                exact ⟨l, List.mem_append_right _ (by simp), pyStripL_stripR l,
                  fun c hc => mem_of_mem_stripR hc⟩

/-- Full stripping of a newline-join: still a newline-join of lines each
strip-equal to an original line, with characters drawn from it. -/
theorem pyStripL_joinNLl (ls : List (List Char)) (hne : ls ≠ []) :
    ∃ ls2 : List (List Char), ls2 ≠ [] ∧
      pyStripL (joinNLl ls) = joinNLl ls2 ∧
      ∀ x ∈ ls2, ∃ l ∈ ls, pyStripL x = pyStripL l ∧ ∀ c ∈ x, c ∈ l := by
  rcases stripL_joinNLl ls hne with ⟨ls1, h1ne, h1eq, h1rel⟩
  rcases stripR_joinNLl ls1 h1ne with ⟨ls2, h2ne, h2eq, h2rel⟩
  refine ⟨ls2, h2ne, ?_, ?_⟩
  · rw [pyStripL, h1eq, h2eq]
  · intro x hx
    rcases h2rel x hx with ⟨m, hm, he1, hs1⟩
    rcases h1rel m hm with ⟨l, hl, he2, hs2⟩
    exact ⟨l, hl, he1.trans he2, fun c hc => hs2 c (hs1 c hc)⟩

/-- The central fact behind the `message` invariants: every `splitlines`
line of `"\n".join(clean_lines).strip()` is, up to `strip`, one of the
`clean_lines` (provided those are themselves boundary-free, as lines
produced by `splitlines` are). -/
theorem lines_of_stripped_join (ls : List (List Char)) (hne : ls ≠ [])
    (hb : ∀ l ∈ ls, ∀ c ∈ l, isLineB c = false) :
    ∀ x ∈ splitLinesL (pyStripL (joinNLl ls)), ∃ l ∈ ls, pyStripL x = pyStripL l := by
  rcases pyStripL_joinNLl ls hne with ⟨ls2, h2ne, h2eq, h2rel⟩
  intro x hx
  rw [h2eq] at hx
  -- all boundary characters in the stripped join are '\n'
  have honly : ∀ c ∈ joinNLl ls2, isLineB c = true → c = '\n' := by
    intro c hc hBc
    rcases mem_joinNLl hc with h | ⟨m, hm, hcm⟩
    · exact h
    · rcases h2rel m hm with ⟨l, hl, _, hsub⟩
      exact absurd (hb l hl c (hsub c hcm)) (by simp [hBc])
  -- hence the splitlines of the join are among its splitNL lines
  have hxnl : x ∈ splitNL (joinNLl ls2) := by
    unfold splitLinesL at hx
    rcases he : (joinNLl ls2).isEmpty with _ | _ <;> rw [he] at hx
    · exact mem_splitNLAux_of_mem_splitLinesAux _ [] honly x (by simpa using hx)
    · simp at hx
  -- and splitNL undoes the join
  rw [splitNL_joinNLl h2ne ?hnl] at hxnl
  case hnl =>
    intro l hl hnl
    rcases h2rel l hl with ⟨m, hm, _, hsub⟩
    exact absurd (hb m hm '\n' (hsub _ hnl)) (by decide)
  rcases h2rel x hxnl with ⟨l, hl, he, _⟩
  exact ⟨l, hl, he⟩

/-- A line whose trimmed form starts with `"curl "` cannot take the
`"reproduce with"` branch. -/
theorem not_repro_of_curlStart {l : List Char}
    (h : startsWithL l "curl ".data = true) :
    startsWithL (lowerL l) "reproduce with".data = false := by
  rcases List.isPrefixOf_iff_prefix.mp h with ⟨t, ht⟩
  subst ht
  show List.isPrefixOf "reproduce with".data (lowerL ("curl ".data ++ t)) = false
  rw [lowerL, List.map_append,
    show "curl ".data.map lowerChar = 'c' :: "url ".data from by decide]
  rfl

/-- A string with `"curl "` as a prefix is nonempty. -/
theorem ne_nil_of_curlStart {l : List Char}
    (h : startsWithL l "curl ".data = true) : l ≠ [] := by
  rcases List.isPrefixOf_iff_prefix.mp h with ⟨t, ht⟩
  subst ht
  simp

/-- Every line the stripping loop retains was already retained, or is an
input line that starts with neither `"curl "` nor (case-insensitively)
`"reproduce with"` after trimming. -/
theorem foldl_stripStep_clean (lines : List (List Char)) :
    ∀ st : StripState, ∀ l ∈ (lines.foldl stripStep st).clean,
      l ∈ st.clean ∨ (l ∈ lines ∧
        startsWithL (pyStripL l) "curl ".data = false ∧
        startsWithL (lowerL (pyStripL l)) "reproduce with".data = false) := by
  induction lines with
  | nil => intro st l hl; exact Or.inl hl
  | cons x rest ih =>
      intro st l hl
      rw [List.foldl_cons] at hl
      rcases ih (stripStep st x) l hl with h | ⟨h1, h2, h3⟩
      · simp only [stripStep] at h
        by_cases hrep : startsWithL (lowerL (pyStripL x)) "reproduce with".data = true
        · rw [if_pos hrep] at h; exact Or.inl h
        · rw [if_neg hrep] at h
          by_cases hcurl : startsWithL (pyStripL x) "curl ".data = true
          · rw [if_pos hcurl] at h
            by_cases hemp : st.curl.isEmpty = true
            · rw [if_pos hemp] at h; exact Or.inl h
            · rw [if_neg hemp] at h; exact Or.inl h
          · rw [if_neg hcurl] at h
            by_cases hskip :
                (st.seenRepro && (startsWithL (pyStripL x) "curl ".data
                  || (pyStripL x).isEmpty)) = true
            · rw [if_pos hskip] at h; exact Or.inl h
            · rw [if_neg hskip] at h
              simp only [List.mem_append, List.mem_singleton] at h
              rcases h with h | rfl
              · exact Or.inl h
              · exact Or.inr ⟨List.mem_cons_self _ _,
                  by simpa using hcurl, by simpa using hrep⟩
      · exact Or.inr ⟨List.mem_cons_of_mem _ h1, h2, h3⟩

/-- Once a reproduction command is captured it is never overwritten. -/
theorem foldl_stripStep_curl_frozen (lines : List (List Char)) :
    ∀ st : StripState, st.curl ≠ [] → (lines.foldl stripStep st).curl = st.curl := by
  induction lines with
  | nil => intro st _; rfl
  | cons x rest ih =>
      intro st hst
      rw [List.foldl_cons]
      have hstep : (stripStep st x).curl = st.curl := by
        simp only [stripStep]
        by_cases hrep : startsWithL (lowerL (pyStripL x)) "reproduce with".data = true
        · rw [if_pos hrep]
        · rw [if_neg hrep]
          by_cases hcurl : startsWithL (pyStripL x) "curl ".data = true
          · rw [if_pos hcurl, if_neg (by simpa [List.isEmpty_iff] using hst)]
          · rw [if_neg hcurl]
            by_cases hskip :
                (st.seenRepro && (startsWithL (pyStripL x) "curl ".data
                  || (pyStripL x).isEmpty)) = true
            · rw [if_pos hskip]
            · rw [if_neg hskip]
      rw [ih _ (by rw [hstep]; exact hst), hstep]

/-- The captured reproduction command is the trimmed first line whose
trimmed form starts with `"curl "` (or empty if there is none), however
the `seen_reproduce` flag evolves. -/
theorem foldl_stripStep_curl (lines : List (List Char)) :
    ∀ st : StripState, st.curl = [] →
      (lines.foldl stripStep st).curl =
        (match lines.find? (fun l => startsWithL (pyStripL l) "curl ".data) with
         | some l => pyStripL l
         | none => []) := by
  induction lines with
  | nil => intro st h; exact h
  | cons x rest ih =>
      intro st hst
      rw [List.foldl_cons, List.find?_cons]
      by_cases hcurl : startsWithL (pyStripL x) "curl ".data = true
      · rw [hcurl]
        have hstep : (stripStep st x).curl = pyStripL x := by
          simp only [stripStep]
          rw [if_neg (by simp [not_repro_of_curlStart hcurl]), if_pos hcurl,
            if_pos (by simp [List.isEmpty_iff, hst])]
        rw [foldl_stripStep_curl_frozen rest _
          (by rw [hstep]; exact ne_nil_of_curlStart hcurl), hstep]
      · rw [show (startsWithL (pyStripL x) "curl ".data) = false by simpa using hcurl]
        have hstep : (stripStep st x).curl = [] := by
          simp only [stripStep]
          by_cases hrep : startsWithL (lowerL (pyStripL x)) "reproduce with".data = true
          · rw [if_pos hrep]; exact hst
          · rw [if_neg hrep, if_neg hcurl]
            by_cases hskip :
                (st.seenRepro && (startsWithL (pyStripL x) "curl ".data
                  || (pyStripL x).isEmpty)) = true
            · rw [if_pos hskip]; exact hst
            · rw [if_neg hskip]; exact hst
        exact ih _ hstep

/-- Lines retained by the stripping loop are lines of the raw message that
start with neither `"curl "` nor `"reproduce with"` after trimming. -/
theorem stripLines_clean_mem (raw : List Char) :
    ∀ l ∈ (stripLines raw).clean, l ∈ splitLinesL raw ∧
      startsWithL (pyStripL l) "curl ".data = false ∧
      startsWithL (lowerL (pyStripL l)) "reproduce with".data = false := by
  intro l hl
  rcases foldl_stripStep_clean (splitLinesL raw) ⟨[], [], false⟩ l hl with h | ⟨h1, h2, h3⟩
  · cases h
  · exact ⟨h1, h2, h3⟩

/-- The captured reproduction command of the loop over a raw message. -/
theorem stripLines_curl (raw : List Char) :
    (stripLines raw).curl =
      (match (splitLinesL raw).find? (fun l => startsWithL (pyStripL l) "curl ".data) with
       | some l => pyStripL l
       | none => []) :=
  foldl_stripStep_curl (splitLinesL raw) ⟨[], [], false⟩ rfl

/-- When the stripped message is nonempty (no fallback to the raw text),
none of its lines starts, after trimming, with `"curl "` or
case-insensitively with `"reproduce with"`. -/
theorem cleanMsg_lines (raw : List Char) (h : cleanMsg raw ≠ []) :
    ∀ x ∈ splitLinesL (cleanMsg raw),
      startsWithL (pyStripL x) "curl ".data = false ∧
      startsWithL (lowerL (pyStripL x)) "reproduce with".data = false := by
  intro x hx
  have hne : (stripLines raw).clean ≠ [] := by
    intro hcl
    apply h
    rw [cleanMsg, hcl]
    rfl
  have hb : ∀ l ∈ (stripLines raw).clean, ∀ c ∈ l, isLineB c = false := by
    intro l hl c hc
    exact splitLinesL_no_boundary l (stripLines_clean_mem raw l hl).1 c hc
  rcases lines_of_stripped_join _ hne hb x (by unfold cleanMsg at hx; exact hx)
    with ⟨l, hl, he⟩
  rcases stripLines_clean_mem raw l hl with ⟨_, h2, h3⟩
  refine ⟨?_, ?_⟩
  · rw [he]; exact h2
  · rw [he]; exact h3

theorem joinSpaceL_concat :
    ∀ (ls : List (List Char)) (w : List Char),
      joinSpaceL (ls ++ [w]) = if ls.isEmpty then w else joinSpaceL ls ++ ' ' :: w := by
  intro ls
  induction ls with
  | nil => intro w; simp [joinSpaceL]
  | cons a as ih =>
      intro w
      cases as with
      | nil => simp [joinSpaceL]
      | cons b bs =>
          rw [List.cons_append,
            show joinSpaceL (a :: (b :: bs ++ [w])) = a ++ ' ' :: joinSpaceL (b :: bs ++ [w])
              from rfl,
            ih w]
          simp [joinSpaceL, List.append_assoc]

theorem takeFit_bound :
    ∀ (ws acc : List (List Char)) (len : Nat),
      len = (joinSpaceL acc).length → (acc ≠ [] → len + 1 ≤ 180) →
      (takeFit ws acc len = [] → acc = []) ∧
      (takeFit ws acc len ≠ [] →
        (joinSpaceL (takeFit ws acc len)).length + 1 ≤ 180) := by
  intro ws
  induction ws with
  | nil =>
      intro acc len hlen hbound
      refine ⟨fun h => h, fun h => ?_⟩
      rw [takeFit] at h ⊢
      rw [← hlen]
      exact hbound h
  | cons w rest ih =>
      intro acc len hlen hbound
      rw [takeFit]
      by_cases hfit : ((if acc.isEmpty then w.length else len + 1 + w.length) + 1 ≤ 180)
      · rw [if_pos hfit]
        have hlen' : (if acc.isEmpty then w.length else len + 1 + w.length) =
            (joinSpaceL (acc ++ [w])).length := by
          rw [joinSpaceL_concat]
          rcases he : acc.isEmpty with _ | _
          · rw [if_neg (by simp [he]), if_neg (by simp [he])]
            simp [hlen]
            omega
          · rw [if_pos (by simp [he]), if_pos (by simp [he])]
        refine ⟨fun h => ?_, fun h => ?_⟩
        · have := (ih (acc ++ [w])
            (if acc.isEmpty then w.length else len + 1 + w.length) hlen'
            (fun _ => hfit)).1 h
          simp at this
        · exact (ih (acc ++ [w])
            (if acc.isEmpty then w.length else len + 1 + w.length) hlen'
            (fun _ => hfit)).2 h
      · rw [if_neg hfit]
        refine ⟨fun h => h, fun h => ?_⟩
        rw [← hlen]
        exact hbound h

/-- `shorten` never produces more than 180 characters. -/
theorem pyShortenL_length (text : List Char) : (pyShortenL text).length ≤ 180 := by
  rw [pyShortenL]
  by_cases hc : (joinSpaceL (pySplitL text)).length ≤ 180
  · rw [if_pos hc]; exact hc
  · rw [if_neg hc]
    rcases hk : (takeFit (pySplitL text) [] 0).isEmpty with _ | _
    · rw [if_neg (by simp [hk])]
      have := (takeFit_bound (pySplitL text) [] 0 rfl (by intro h; exact absurd rfl h)).2
        (by simpa [List.isEmpty_iff] using hk)
      simp only [List.length_append, List.length_cons, List.length_nil]
      omega
    · rw [if_pos (by simp_all)]
      simp

/-- When the collapsed text already fits, `shorten` returns it unchanged. -/
theorem pyShortenL_of_short {text : List Char} (h : (collapseL text).length ≤ 180) :
    pyShortenL text = collapseL text := by
  rw [pyShortenL, if_pos (by exact h)]
  rfl

/-- The per-suite loop of `parse_junit`, declaratively: one Issue per
test case with a failure child, in order. -/
theorem foldl_testcases_eq (ts : TestsuiteElem) :
    ∀ (tcs : List TestcaseElem) (acc : List Issue),
      tcs.foldl
        (fun acc2 tc =>
          match tc.failures.head? with
          | none => acc2
          | some f =>
              acc2 ++ [extractIssue (ts.name.getD "") (tc.name.getD "")
                        (tc.time.getD "") (f.message.getD "")])
        acc =
      acc ++ tcs.filterMap (fun tc =>
        tc.failures.head?.map (fun f =>
          extractIssue (ts.name.getD "") (tc.name.getD "")
            (tc.time.getD "") (f.message.getD ""))) := by
  intro tcs
  induction tcs with
  | nil => intro acc; simp
  | cons tc rest ih =>
      intro acc
      rw [List.foldl_cons, List.filterMap_cons]
      cases hf : tc.failures.head? with
      | none => simpa using ih acc
      | some f =>
          simp only [Option.map_some]
          rw [ih (acc ++ [_])]
          simp

/-- `parse_junit`, declaratively: Issues appear in document order (suites
in XML order, test cases in order within each suite), exactly one per test
case that has a `failure` child. -/
theorem parse_junit_eq_flatMap (suites : List TestsuiteElem) :
    parse_junit suites =
      suites.flatMap (fun ts =>
        ts.testcases.filterMap (fun tc =>
          tc.failures.head?.map (fun f =>
            extractIssue (ts.name.getD "") (tc.name.getD "")
              (tc.time.getD "") (f.message.getD "")))) := by
  suffices h : ∀ (ss : List TestsuiteElem) (acc : List Issue),
      ss.foldl
        (fun acc ts =>
          ts.testcases.foldl
            (fun acc2 tc =>
              match tc.failures.head? with
              | none => acc2
              | some f =>
                  acc2 ++ [extractIssue (ts.name.getD "") (tc.name.getD "")
                            (tc.time.getD "") (f.message.getD "")])
            acc)
        acc =
      acc ++ ss.flatMap (fun ts =>
        ts.testcases.filterMap (fun tc =>
          tc.failures.head?.map (fun f =>
            extractIssue (ts.name.getD "") (tc.name.getD "")
              (tc.time.getD "") (f.message.getD "")))) by
    rw [parse_junit, h suites []]
    simp
  intro ss
  induction ss with
  | nil => intro acc; simp
  | cons ts rest ih =>
      intro acc
      rw [List.foldl_cons, foldl_testcases_eq ts, ih, List.flatMap_cons,
        List.append_assoc]

theorem charEq_of_toNat {a b : Char} (h : a.toNat = b.toNat) : a = b :=
  Char.ext (UInt32.ext h)

theorem listLtB_irrefl : ∀ l : List Char, listLtB l l = false := by
  intro l
  induction l with
  | nil => rfl
  | cons c rest ih =>
      rw [listLtB, if_neg (by omega), if_neg (by omega)]
      exact ih

theorem listLtB_trans :
    ∀ a b c : List Char, listLtB a b = true → listLtB b c = true → listLtB a c = true := by
  intro a
  induction a with
  | nil =>
      intro b c hab hbc
      cases b with
      | nil => cases hab
      | cons y ys =>
          cases c with
          | nil => cases hbc
          | cons z zs => rfl
  | cons x xs ih =>
      intro b c hab hbc
      cases b with
      | nil => cases hab
      | cons y ys =>
          cases c with
          | nil => cases hbc
          | cons z zs =>
              rw [listLtB] at hab hbc ⊢
              by_cases hxy : x.toNat < y.toNat
              · by_cases hyz : y.toNat < z.toNat
                · rw [if_pos (by omega)]
                · rw [if_neg hyz] at hbc
                  by_cases hzy : z.toNat < y.toNat
                  · rw [if_pos hzy] at hbc; cases hbc
                  · rw [if_pos (by omega)]
              · rw [if_neg hxy] at hab
                by_cases hyx : y.toNat < x.toNat
                · rw [if_pos hyx] at hab; cases hab
                · rw [if_neg hyx] at hab
                  by_cases hyz : y.toNat < z.toNat
                  · rw [if_pos (by omega)]
                  · rw [if_neg hyz] at hbc
                    by_cases hzy : z.toNat < y.toNat
                    · rw [if_pos hzy] at hbc; cases hbc
                    · rw [if_neg hzy] at hbc
                      rw [if_neg (by omega), if_neg (by omega)]
                      exact ih ys zs hab hbc

theorem listLtB_total :
    ∀ a b : List Char, listLtB a b = true ∨ a = b ∨ listLtB b a = true := by
  intro a
  induction a with
  | nil =>
      intro b
      cases b with
      | nil => exact Or.inr (Or.inl rfl)
      | cons y ys => exact Or.inl rfl
  | cons x xs ih =>
      intro b
      cases b with
      | nil => exact Or.inr (Or.inr rfl)
      | cons y ys =>
          by_cases hxy : x.toNat < y.toNat
          · exact Or.inl (by rw [listLtB, if_pos hxy])
          · by_cases hyx : y.toNat < x.toNat
            · exact Or.inr (Or.inr (by rw [listLtB, if_pos hyx]))
            · have hxeq : x = y := charEq_of_toNat (by omega)
              subst hxeq
              rcases ih ys with h | h | h
              · exact Or.inl (by rw [listLtB, if_neg (by omega), if_neg (by omega)]; exact h)
              · exact Or.inr (Or.inl (by rw [h]))
              · exact Or.inr (Or.inr (by rw [listLtB, if_neg (by omega), if_neg (by omega)]; exact h))

theorem strLtB_irrefl (s : String) : strLtB s s = false := listLtB_irrefl s.data

theorem strLtB_trans {a b c : String} (h1 : strLtB a b = true) (h2 : strLtB b c = true) :
    strLtB a c = true := listLtB_trans a.data b.data c.data h1 h2

theorem strLtB_total (a b : String) : strLtB a b = true ∨ a = b ∨ strLtB b a = true := by
  rcases listLtB_total a.data b.data with h | h | h
  · exact Or.inl h
  · refine Or.inr (Or.inl ?_)
    exact congrArg String.mk h
  · exact Or.inr (Or.inr h)

theorem strLtB_ne {a b : String} (h : strLtB a b = true) : a ≠ b := by
  intro hk
  subst hk
  rw [strLtB_irrefl] at h
  cases h

theorem mem_insertSortedSet (x a : String) :
    ∀ l : List String, a ∈ insertSortedSet x l ↔ a = x ∨ a ∈ l := by
  intro l
  induction l with
  | nil => simp [insertSortedSet]
  | cons y ys ih =>
      rw [insertSortedSet]
      by_cases h1 : strLtB x y = true
      · rw [if_pos h1]
        exact List.mem_cons
      · rw [if_neg h1]
        by_cases h2 : x = y
        · rw [if_pos h2]
          subst h2
          constructor
          · exact fun h => Or.inr h
          · rintro (rfl | h)
            · exact List.mem_cons_self _ _
            · exact h
        · rw [if_neg h2]
          rw [List.mem_cons, ih, List.mem_cons]
          tauto

theorem pairwise_insertSortedSet (x : String) :
    ∀ l : List String, l.Pairwise (fun a b => strLtB a b = true) →
      (insertSortedSet x l).Pairwise (fun a b => strLtB a b = true) := by
  intro l
  induction l with
  | nil => intro _; simp [insertSortedSet]
  | cons y ys ih =>
      intro hp
      rcases List.pairwise_cons.mp hp with ⟨hy, hys⟩
      rw [insertSortedSet]
      by_cases h1 : strLtB x y = true
      · rw [if_pos h1]
        refine List.pairwise_cons.mpr ⟨?_, hp⟩
        intro z hz
        rcases List.mem_cons.mp hz with rfl | hz2
        · exact h1
        · exact strLtB_trans h1 (hy z hz2)
      · rw [if_neg h1]
        by_cases h2 : x = y
        · rw [if_pos h2]; exact hp
        · rw [if_neg h2]
          refine List.pairwise_cons.mpr ⟨?_, ih hys⟩
          intro z hz
          rcases (mem_insertSortedSet x z ys).mp hz with hzx | hz2
          · rw [hzx]
            rcases strLtB_total x y with h | h | h
            · exact absurd h h1
            · exact absurd h h2
            · exact h
          · exact hy z hz2

theorem base_urls_foldl_pairwise (issues : List Issue) :
    ∀ acc : List String, acc.Pairwise (fun a b => strLtB a b = true) →
      (issues.foldl
        (fun s i =>
          let b := extract_base_url i.curl i.suite
          if b = "" then s else insertSortedSet b s) acc).Pairwise
        (fun a b => strLtB a b = true) := by
  induction issues with
  | nil => intro acc h; exact h
  | cons i rest ih =>
      intro acc h
      rw [List.foldl_cons]
      apply ih
      by_cases hb : extract_base_url i.curl i.suite = ""
      · simpa [hb] using h
      · simpa [hb] using pairwise_insertSortedSet _ acc h

theorem base_urls_foldl_mem (issues : List Issue) :
    ∀ (acc : List String) (a : String),
      (a ∈ issues.foldl
        (fun s i =>
          let b := extract_base_url i.curl i.suite
          if b = "" then s else insertSortedSet b s) acc) ↔
      (a ∈ acc ∨ (a ≠ "" ∧ ∃ i ∈ issues, extract_base_url i.curl i.suite = a)) := by
  induction issues with
  | nil =>
      intro acc a
      simp
  | cons i rest ih =>
      intro acc a
      rw [List.foldl_cons]
      by_cases hb : extract_base_url i.curl i.suite = ""
      · simp only [hb, if_pos rfl]
        rw [ih]
        constructor
        · rintro (h | ⟨h1, j, hj, h2⟩)
          · exact Or.inl h
          · exact Or.inr ⟨h1, j, List.mem_cons_of_mem _ hj, h2⟩
        · rintro (h | ⟨h1, j, hj, h2⟩)
          · exact Or.inl h
          · rcases List.mem_cons.mp hj with rfl | hj2
            · exact absurd h2 (by rw [hb]; exact fun hk => h1 hk.symm)
            · exact Or.inr ⟨h1, j, hj2, h2⟩
      · rw [show (if extract_base_url i.curl i.suite = "" then acc
              else insertSortedSet (extract_base_url i.curl i.suite) acc) =
            insertSortedSet (extract_base_url i.curl i.suite) acc from if_neg hb]
        rw [ih, mem_insertSortedSet]
        constructor
        · rintro ((h | h) | ⟨h1, j, hj, h2⟩)
          · exact Or.inr ⟨by rw [h]; exact hb,
              i, List.mem_cons_self _ _, h.symm⟩
          · exact Or.inl h
          · exact Or.inr ⟨h1, j, List.mem_cons_of_mem _ hj, h2⟩
        · rintro (h | ⟨h1, j, hj, h2⟩)
          · exact Or.inl (Or.inr h)
          · rcases List.mem_cons.mp hj with rfl | hj2
            · exact Or.inl (Or.inl h2.symm)
            · exact Or.inr ⟨h1, j, hj2, h2⟩

/-- `base_urls` is strictly sorted (hence duplicate-free). -/
theorem base_urls_pairwise (issues : List Issue) :
    (base_urls issues).Pairwise (fun a b => strLtB a b = true) :=
  base_urls_foldl_pairwise issues [] (List.Pairwise.nil)

theorem base_urls_nodup (issues : List Issue) : (base_urls issues).Nodup :=
  (base_urls_pairwise issues).imp (fun h => strLtB_ne h)

/-- Membership in `base_urls`: exactly the nonempty extracted base URLs. -/
theorem mem_base_urls (issues : List Issue) (a : String) :
    a ∈ base_urls issues ↔
      a ≠ "" ∧ ∃ i ∈ issues, extract_base_url i.curl i.suite = a := by
  rw [base_urls, base_urls_foldl_mem]
  simp

theorem decLeB_refl (a : DecNum) : decLeB a a = true := by
  simp [decLeB]

theorem decLeB_total (a b : DecNum) : decLeB a b = true ∨ decLeB b a = true := by
  simp only [decLeB, decide_eq_true_eq]
  exact Int.le_total _ _

theorem decLeB_trans {a b c : DecNum} (h1 : decLeB a b = true) (h2 : decLeB b c = true) :
    decLeB a c = true := by
  simp only [decLeB, decide_eq_true_eq] at h1 h2 ⊢
  have hb : (0:Int) < 10 ^ b.k := pow_pos (by norm_num) _
  have hc : (0:Int) ≤ 10 ^ c.k := le_of_lt (pow_pos (by norm_num) _)
  have ha : (0:Int) ≤ 10 ^ a.k := le_of_lt (pow_pos (by norm_num) _)
  have h1' := mul_le_mul_of_nonneg_right h1 hc
  have h2' := mul_le_mul_of_nonneg_right h2 ha
  have hmid : b.m * 10 ^ a.k * 10 ^ c.k = b.m * 10 ^ c.k * 10 ^ a.k := by ring
  rw [hmid] at h1'
  have hall : a.m * 10 ^ c.k * 10 ^ b.k ≤ c.m * 10 ^ a.k * 10 ^ b.k := by
    calc a.m * 10 ^ c.k * 10 ^ b.k = a.m * 10 ^ b.k * 10 ^ c.k := by ring
    _ ≤ c.m * 10 ^ b.k * 10 ^ a.k := le_trans h1' h2'
    _ = c.m * 10 ^ a.k * 10 ^ b.k := by ring
  exact le_of_mul_le_mul_right hall hb

theorem decLtB_iff (a b : DecNum) : decLtB a b = true ↔ ¬ decLeB b a = true := by
  simp only [decLtB, decLeB, decide_eq_true_eq]
  exact ⟨fun h => not_le_of_lt h, fun h => lt_of_not_le h⟩

/-- The fold Python's `min` performs keeps an element of the list. -/
theorem pyLeB_refl {a : PyFloat} (h : notNanB a = true) : pyLeB a a = true := by
  cases a with
  | nan => simp [notNanB] at h
  | finite d => exact decLeB_refl d
  | inf n => cases n <;> rfl

theorem pyLeB_total {a b : PyFloat} (ha : notNanB a = true) (hb : notNanB b = true) :
    pyLeB a b = true ∨ pyLeB b a = true := by
  cases a with
  | nan => simp [notNanB] at ha
  | finite da =>
      cases b with
      | nan => simp [notNanB] at hb
      | finite db => exact decLeB_total da db
      | inf n => cases n <;> simp [pyLeB]
  | inf n1 =>
      cases b with
      | nan => simp [notNanB] at hb
      | finite db => cases n1 <;> simp [pyLeB]
      | inf n2 => cases n1 <;> cases n2 <;> simp [pyLeB]

theorem pyLeB_trans {a b c : PyFloat} (h1 : pyLeB a b = true) (h2 : pyLeB b c = true) :
    pyLeB a c = true := by
  cases a with
  | nan => simp [pyLeB] at h1
  | finite da =>
      cases b with
      | nan => simp [pyLeB] at h1
      | finite db =>
          cases c with
          | nan => simp [pyLeB] at h2
          | finite dc => exact decLeB_trans h1 h2
          | inf n3 =>
              simp only [pyLeB] at h2 ⊢
              exact h2
      | inf n2 =>
          cases c with
          | nan => simp [pyLeB] at h2
          | finite dc =>
              simp only [pyLeB] at h1 h2
              rw [h2] at h1
              simp at h1
          | inf n3 =>
              simp only [pyLeB] at h1 h2 ⊢
              cases n2 with
              | false => simpa using h2
              | true => simp at h1
  | inf n1 =>
      cases b with
      | nan => simp [pyLeB] at h1
      | finite db =>
          simp only [pyLeB] at h1
          cases c with
          | nan => simp [pyLeB] at h2
          | finite dc => simp only [pyLeB]; exact h1
          | inf n3 => simp only [pyLeB]; rw [h1]; rfl
      | inf n2 =>
          cases c with
          | nan => simp [pyLeB] at h2
          | finite dc =>
              simp only [pyLeB] at h1 h2 ⊢
              rw [h2] at h1
              simpa using h1
          | inf n3 =>
              simp only [pyLeB] at h1 h2 ⊢
              cases n1 with
              | true => rfl
              | false =>
                  cases n2 with
                  | true => simp at h1
                  | false => simpa using h2

theorem pyLtB_iff {a b : PyFloat} (ha : notNanB a = true) (hb : notNanB b = true) :
    pyLtB a b = true ↔ ¬ pyLeB b a = true := by
  cases a with
  | nan => simp [notNanB] at ha
  | finite da =>
      cases b with
      | nan => simp [notNanB] at hb
      | finite db => exact decLtB_iff da db
      | inf n => cases n <;> simp [pyLtB, pyLeB]
  | inf n1 =>
      cases b with
      | nan => simp [notNanB] at hb
      | finite db => cases n1 <;> simp [pyLtB, pyLeB]
      | inf n2 => cases n1 <;> cases n2 <;> simp [pyLtB, pyLeB]

/-- The fold Python's `min` performs keeps an element of the list. -/
theorem foldl_min_mem :
    ∀ (ts : List PyFloat) (t : PyFloat),
      (ts.foldl (fun acc x => if pyLtB x acc then x else acc) t) = t ∨
      (ts.foldl (fun acc x => if pyLtB x acc then x else acc) t) ∈ ts := by
  intro ts
  induction ts with
  | nil => intro t; exact Or.inl rfl
  | cons y ys ih =>
      intro t
      rw [List.foldl_cons]
      rcases ih (if pyLtB y t then y else t) with h | h
      · rw [h]
        by_cases hyt : pyLtB y t = true
        · rw [if_pos hyt]; exact Or.inr (List.mem_cons_self _ _)
        · rw [if_neg hyt]; exact Or.inl rfl
      · exact Or.inr (List.mem_cons_of_mem _ h)

/-- On NaN-free inputs Python's `min` is a lower bound of the list (with
NaN in the list this fails: every comparison against NaN is false). -/
theorem foldl_min_le :
    ∀ (ts : List PyFloat) (t x : PyFloat), notNanB t = true →
      (∀ y ∈ ts, notNanB y = true) → (x = t ∨ x ∈ ts) →
      pyLeB (ts.foldl (fun acc a => if pyLtB a acc then a else acc) t) x = true := by
  intro ts
  induction ts with
  | nil =>
      intro t x ht _ hx
      rcases hx with rfl | h
      · exact pyLeB_refl ht
      · cases h
  | cons y ys ih =>
      intro t x ht hys hx
      have hy : notNanB y = true := hys y (List.mem_cons_self _ _)
      have hys2 : ∀ z ∈ ys, notNanB z = true :=
        fun z hz => hys z (List.mem_cons_of_mem _ hz)
      have hinit_nn : notNanB (if pyLtB y t then y else t) = true := by
        by_cases hyt : pyLtB y t = true
        · rw [if_pos hyt]; exact hy
        · rw [if_neg hyt]; exact ht
      rw [List.foldl_cons]
      have hinit_t : pyLeB (if pyLtB y t then y else t) t = true := by
        by_cases hyt : pyLtB y t = true
        · rw [if_pos hyt]
          rcases pyLeB_total hy ht with h | h
          · exact h
          · exact absurd h ((pyLtB_iff hy ht).mp hyt)
        · rw [if_neg hyt]; exact pyLeB_refl ht
      have hinit_y : pyLeB (if pyLtB y t then y else t) y = true := by
        by_cases hyt : pyLtB y t = true
        · rw [if_pos hyt]; exact pyLeB_refl hy
        · rw [if_neg hyt]
          by_contra hk
          exact hyt ((pyLtB_iff hy ht).mpr hk)
      have hres_init := ih (if pyLtB y t then y else t)
        (if pyLtB y t then y else t) hinit_nn hys2 (Or.inl rfl)
      rcases hx with rfl | hx2
      · exact pyLeB_trans hres_init hinit_t
      · rcases List.mem_cons.mp hx2 with rfl | hx3
        · exact pyLeB_trans hres_init hinit_y
        · exact ih _ x hinit_nn hys2 (Or.inr hx3)

theorem foldl_max_mem :
    ∀ (ts : List PyFloat) (t : PyFloat),
      (ts.foldl (fun acc x => if pyLtB acc x then x else acc) t) = t ∨
      (ts.foldl (fun acc x => if pyLtB acc x then x else acc) t) ∈ ts := by
  intro ts
  induction ts with
  | nil => intro t; exact Or.inl rfl
  | cons y ys ih =>
      intro t
      rw [List.foldl_cons]
      rcases ih (if pyLtB t y then y else t) with h | h
      · rw [h]
        by_cases hyt : pyLtB t y = true
        · rw [if_pos hyt]; exact Or.inr (List.mem_cons_self _ _)
        · rw [if_neg hyt]; exact Or.inl rfl
      · exact Or.inr (List.mem_cons_of_mem _ h)

theorem foldl_max_ge :
    ∀ (ts : List PyFloat) (t x : PyFloat), notNanB t = true →
      (∀ y ∈ ts, notNanB y = true) → (x = t ∨ x ∈ ts) →
      pyLeB x (ts.foldl (fun acc a => if pyLtB acc a then a else acc) t) = true := by
  intro ts
  induction ts with
  | nil =>
      intro t x ht _ hx
      rcases hx with rfl | h
      · exact pyLeB_refl ht
      · cases h
  | cons y ys ih =>
      intro t x ht hys hx
      have hy : notNanB y = true := hys y (List.mem_cons_self _ _)
      have hys2 : ∀ z ∈ ys, notNanB z = true :=
        fun z hz => hys z (List.mem_cons_of_mem _ hz)
      have hinit_nn : notNanB (if pyLtB t y then y else t) = true := by
        by_cases hyt : pyLtB t y = true
        · rw [if_pos hyt]; exact hy
        · rw [if_neg hyt]; exact ht
      rw [List.foldl_cons]
      have hinit_t : pyLeB t (if pyLtB t y then y else t) = true := by
        by_cases hyt : pyLtB t y = true
        · rw [if_pos hyt]
          rcases pyLeB_total ht hy with h | h
          · exact h
          · exact absurd h ((pyLtB_iff ht hy).mp hyt)
        · rw [if_neg hyt]; exact pyLeB_refl ht
      have hinit_y : pyLeB y (if pyLtB t y then y else t) = true := by
        by_cases hyt : pyLtB t y = true
        · rw [if_pos hyt]; exact pyLeB_refl hy
        · rw [if_neg hyt]
          by_contra hk
          exact hyt ((pyLtB_iff ht hy).mpr hk)
      have hres_init := ih (if pyLtB t y then y else t)
        (if pyLtB t y then y else t) hinit_nn hys2 (Or.inl rfl)
      rcases hx with rfl | hx2
      · exact pyLeB_trans hinit_t hres_init
      · rcases List.mem_cons.mp hx2 with rfl | hx3
        · exact pyLeB_trans hinit_y hres_init
        · exact ih _ x hinit_nn hys2 (Or.inr hx3)

/-- A successful `STATUS_RE` search yields exactly three `\d` digits, all
drawn from the searched string. -/
theorem findStatusAux_shape :
    ∀ cs ds : List Char, findStatusAux cs = some ds →
      (∃ a b c : Char, ds = [a, b, c] ∧
        isPyDigit a = true ∧ isPyDigit b = true ∧ isPyDigit c = true) ∧
      ∀ c ∈ ds, c ∈ cs := by
  intro cs
  induction cs using findStatusAux.induct with
  | case1 a b c rest hd =>
      intro ds hds
      rw [findStatusAux, if_pos hd] at hds
      rcases Option.some.inj hds with rfl
      simp only [Bool.and_eq_true] at hd
      refine ⟨⟨a, b, c, rfl, hd.1.1, hd.1.2, hd.2⟩, ?_⟩
      intro x hx
      simp only [List.mem_cons, List.not_mem_nil, or_false] at hx
      rcases hx with rfl | rfl | rfl <;> simp
  | case2 a b c rest hd ih =>
      intro ds hds
      rw [findStatusAux, if_neg (by simpa using hd)] at hds
      rcases ih ds hds with ⟨hshape, hmem⟩
      exact ⟨hshape, fun x hx => List.mem_cons_of_mem _ (hmem x hx)⟩
  | case3 c rest hnc ih =>
      intro ds hds
      rw [findStatusAux] at hds
      · rcases ih ds hds with ⟨hshape, hmem⟩
        exact ⟨hshape, fun x hx => List.mem_cons_of_mem _ (hmem x hx)⟩
      · exact hnc
  | case4 =>
      intro ds hds
      cases hds

theorem extractIssue_msg (s n t a : String) :
    (extractIssue s n t a).msg.data = processedMsg (pyStripL a.data) := rfl

set_option maxHeartbeats 1000000 in
theorem extractIssue_msg_short (s n t a : String) :
    (extractIssue s n t a).msg_short.data = pyShortenL (processedMsg (pyStripL a.data)) := rfl

theorem extractIssue_curl (s n t a : String) :
    (extractIssue s n t a).curl.data = (stripLines (pyStripL a.data)).curl := rfl

theorem extractIssue_status (s n t a : String) :
    (extractIssue s n t a).status.data = (findStatusAux (pyStripL a.data)).getD [] := rfl

theorem processedMsg_of_ne {raw : List Char} (h : cleanMsg raw ≠ []) :
    processedMsg raw = cleanMsg raw := by
  simp only [processedMsg]
  exact if_neg (by simpa [List.isEmpty_iff] using h)

theorem data_isEmpty_false_of_ne {s : String} (h : s ≠ "") : s.data.isEmpty = false := by
  rcases he : s.data.isEmpty with _ | _
  · rfl
  · exfalso
    apply h
    rw [List.isEmpty_iff] at he
    cases s with
    | mk d => exact congrArg String.mk he

/-! ## The claims -/

/-- **C8**: `parse_junit` emits Issues in document order — suites in XML
order, test cases in order within each suite — with exactly one Issue per
test case having a `failure` child; a test case without one produces no
Issue. -/
theorem claim_C8 (suites : List TestsuiteElem) :
    parse_junit suites =
      suites.flatMap (fun ts =>
        ts.testcases.filterMap (fun tc =>
          tc.failures.head?.map (fun f =>
            extractIssue (ts.name.getD "") (tc.name.getD "")
              (tc.time.getD "") (f.message.getD "")))) :=
  parse_junit_eq_flatMap suites

/-- **C9**: a parse error propagates through the pipeline: no Issue list,
render context or output content is produced; only a successful parse
reaches extraction and rendering. -/
theorem claim_C9 (e : String) :
    runPipeline (Except.error e) = Except.error e ∧
    (∀ ctx : RenderContext, runPipeline (Except.error e) ≠ Except.ok ctx) ∧
    (∀ root : List TestsuiteElem,
      runPipeline (Except.ok root) = Except.ok (buildContext (parse_junit root))) := by
  refine ⟨rfl, ?_, fun root => rfl⟩
  intro ctx h
  cases h

/-- **C9** witness at a concrete error. -/
theorem claim_C9_witness :
    runPipeline (Except.error "syntax error: line 1, column 0") =
      Except.error "syntax error: line 1, column 0" :=
  (claim_C9 "syntax error: line 1, column 0").1

set_option maxHeartbeats 2000000 in
/-- **C3**: `status_code` and `kind` are functions of the full raw
(trimmed) message alone, computed before the reproduction-stripping pass;
in particular a `[503]` occurring only inside the curl line still
determines `status_code = "503"` even though `[503]` does not occur in the
stripped `message`. -/
theorem claim_C3 :
    (∀ s n t a : String,
      (extractIssue s n t a).status = ⟨(findStatusAux (pyStripL a.data)).getD []⟩ ∧
      (extractIssue s n t a).kind =
        ⟨((findKindAux (pyStripL a.data)).map pyStripL).getD []⟩) ∧
    ((parse_junit [⟨some "S", [⟨some "GET /h", some "1",
        [⟨some "boom - failed\nReproduce with:\ncurl -X GET http://h/[503]"⟩]⟩]⟩]).map
        Issue.status = ["503"] ∧
      (parse_junit [⟨some "S", [⟨some "GET /h", some "1",
        [⟨some "boom - failed\nReproduce with:\ncurl -X GET http://h/[503]"⟩]⟩]⟩]).map
        (fun i => containsSubL "[503]".data i.msg.data) = [false] ∧
      containsSubL "[503]".data
        (pyStripL "boom - failed\nReproduce with:\ncurl -X GET http://h/[503]".data) = true) := by
  refine ⟨fun s n t a => ⟨rfl, rfl⟩, by decide, by decide, by decide⟩

set_option maxHeartbeats 2000000 in
/-- **C4** (amended): a nonempty `status_code` is exactly three characters,
each a Unicode decimal digit (`\d` of a Python `str` pattern), drawn from
the raw message; when the raw message is pure ASCII they are ASCII digits
`'0'..'9'`.  (As stated — "3 ASCII digits, no other character possible" —
the claim fails: `\d` also matches non-ASCII decimal digits.) -/
theorem claim_C4 (s n t a : String)
    (h : (extractIssue s n t a).status ≠ "") :
    (extractIssue s n t a).status.data.length = 3 ∧
    (∀ c ∈ (extractIssue s n t a).status.data, isPyDigit c = true) ∧
    ((∀ c ∈ a.data, c.toNat < 128) →
      ∀ c ∈ (extractIssue s n t a).status.data, isAsciiDigit c = true) := by
  rcases hf : findStatusAux (pyStripL a.data) with _ | ds
  · exfalso
    apply h
    have : (extractIssue s n t a).status.data = [] := by
      rw [extractIssue_status, hf]
      rfl
    cases he : (extractIssue s n t a).status with
    | mk d =>
        rw [he] at this
        exact congrArg String.mk this
  · have hdata : (extractIssue s n t a).status.data = ds := by
      rw [extractIssue_status, hf]
      rfl
    rcases findStatusAux_shape _ ds hf with ⟨⟨x, y, z, rfl, hx, hy, hz⟩, hmem⟩
    rw [hdata]
    refine ⟨rfl, ?_, ?_⟩
    · intro c hc
      simp only [List.mem_cons, List.not_mem_nil, or_false] at hc
      rcases hc with rfl | rfl | rfl
      · exact hx
      · exact hy
      · exact hz
    · intro hascii c hc
      have hcm : c ∈ pyStripL a.data := hmem c hc
      have hlt : c.toNat < 128 := hascii c (mem_of_mem_pyStripL hcm)
      simp only [List.mem_cons, List.not_mem_nil, or_false] at hc
      rcases hc with rfl | rfl | rfl
      · exact isAsciiDigit_of_isPyDigit hx hlt
      · exact isAsciiDigit_of_isPyDigit hy hlt
      · exact isAsciiDigit_of_isPyDigit hz hlt

set_option maxHeartbeats 2000000 in
/-- **C4** witness: `[503]` in an ASCII message gives the ASCII status
`"503"`. -/
theorem claim_C4_witness :
    (extractIssue "S" "GET /h" "1" "err [503] boom").status ≠ "" ∧
    (extractIssue "S" "GET /h" "1" "err [503] boom").status.data.length = 3 ∧
    (∀ c ∈ (extractIssue "S" "GET /h" "1" "err [503] boom").status.data,
      isAsciiDigit c = true) :=
  ⟨by decide,
   (claim_C4 "S" "GET /h" "1" "err [503] boom" (by decide)).1,
   (claim_C4 "S" "GET /h" "1" "err [503] boom" (by decide)).2.2 (by decide)⟩

set_option maxHeartbeats 2000000 in
/-- **C4** counterexample: the Arabic-Indic digits in `[٥٠٠]` are matched
by `\d`, so a nonempty `status_code` that is not made of ASCII digits is
extractable. -/
theorem claim_C4_cex :
    (parse_junit [⟨some "S", [⟨some "GET /h", some "1",
        [⟨some "x[٥٠٠]y"⟩]⟩]⟩]).map Issue.status = ["٥٠٠"] ∧
    "٥٠٠" ≠ "" ∧
    "٥٠٠".data.all isAsciiDigit = false := by
  refine ⟨by decide, by decide, by decide⟩

set_option maxHeartbeats 2000000 in
/-- **C2** (amended): `message_short` equals the whitespace-collapsed form
of `message` whenever that collapsed form is at most 180 characters — so it
equals `message` exactly when `message` is additionally free of newlines
and internal whitespace runs — and whenever `message_short` ends with the
ellipsis character its length is at most 180.  (As stated — unchanged for
every `message` of at most 180 characters, "including messages containing
newlines or runs of internal whitespace" — the claim fails:
`textwrap.shorten` collapses whitespace even when no truncation occurs.) -/
theorem claim_C2 (s n t a : String) :
    ((collapseL (extractIssue s n t a).msg.data).length ≤ 180 →
      (extractIssue s n t a).msg_short.data = collapseL (extractIssue s n t a).msg.data) ∧
    (((extractIssue s n t a).msg.data = collapseL (extractIssue s n t a).msg.data ∧
        (extractIssue s n t a).msg.data.length ≤ 180) →
      (extractIssue s n t a).msg_short = (extractIssue s n t a).msg) ∧
    ((extractIssue s n t a).msg_short.data.getLast? = some '…' →
      (extractIssue s n t a).msg_short.data.length ≤ 180) := by
  refine ⟨?_, ?_, ?_⟩
  · intro h
    rw [extractIssue_msg_short]
    rw [extractIssue_msg] at h ⊢
    exact pyShortenL_of_short h
  · rintro ⟨hfix, hlen⟩
    have h1 : (collapseL (extractIssue s n t a).msg.data).length ≤ 180 := by
      rw [← hfix]
      exact hlen
    cases hms : (extractIssue s n t a).msg_short with
    | mk d1 =>
        cases hm : (extractIssue s n t a).msg with
        | mk d2 =>
            apply congrArg String.mk
            have hd1 : d1 = (extractIssue s n t a).msg_short.data := by rw [hms]
            have hd2 : d2 = (extractIssue s n t a).msg.data := by rw [hm]
            rw [hd1, hd2, extractIssue_msg_short, extractIssue_msg]
            rw [extractIssue_msg] at h1 hfix
            rw [pyShortenL_of_short h1]
            exact hfix.symm
  · intro _
    rw [extractIssue_msg_short]
    exact pyShortenL_length _

set_option maxHeartbeats 2000000 in
/-- **C2** witness at a short single-word message (no collapsing, no
truncation: `message_short` equals `message`). -/
theorem claim_C2_witness :
    ((extractIssue "S" "GET /h" "1" "short-error").msg.data =
        collapseL (extractIssue "S" "GET /h" "1" "short-error").msg.data ∧
      (extractIssue "S" "GET /h" "1" "short-error").msg.data.length ≤ 180) ∧
    (extractIssue "S" "GET /h" "1" "short-error").msg_short =
      (extractIssue "S" "GET /h" "1" "short-error").msg :=
  ⟨⟨by decide, by decide⟩,
   (claim_C2 "S" "GET /h" "1" "short-error").2.1 ⟨by decide, by decide⟩⟩

set_option maxHeartbeats 2000000 in
/-- **C2** counterexample: the message `"a  b"` has 4 characters, yet
`message_short` is `"a b"` — `shorten` collapsed the internal whitespace
run although no truncation was needed. -/
theorem claim_C2_cex :
    (parse_junit [⟨some "S", [⟨some "GET /h", some "1",
        [⟨some "a  b"⟩]⟩]⟩]).map Issue.msg = ["a  b"] ∧
    (parse_junit [⟨some "S", [⟨some "GET /h", some "1",
        [⟨some "a  b"⟩]⟩]⟩]).map Issue.msg_short = ["a b"] ∧
    ("a  b" : String).length ≤ 180 ∧
    ("a b" : String) ≠ "a  b" := by
  refine ⟨by decide, by decide, by decide, by decide⟩

set_option maxHeartbeats 2000000 in
/-- **C1** (amended): whenever the reproduction-stripping pass leaves a
nonempty text (so the raw-message fallback is not taken), the extracted
`message` contains no line whose trimmed form starts with `"curl "` — in
particular not the captured reproduction command — and no line whose
trimmed form case-insensitively starts with `"reproduce with"`.  (As
stated, over every input message, the claim fails: for a message consisting
only of the marker and curl lines the stripped text is empty and `message`
falls back to the raw text, marker and command included.) -/
theorem claim_C1 (s n t a : String)
    (h : cleanMsg (pyStripL a.data) ≠ []) :
    ∀ line ∈ splitLinesL (extractIssue s n t a).msg.data,
      startsWithL (pyStripL line) "curl ".data = false ∧
      startsWithL (lowerL (pyStripL line)) "reproduce with".data = false := by
  intro line hline
  rw [extractIssue_msg, processedMsg_of_ne h] at hline
  exact cleanMsg_lines _ h line hline

set_option maxHeartbeats 4000000 in
/-- **C1** witness: a message with an error line, the marker and a curl
line; the stripped message is nonempty and free of both. -/
theorem claim_C1_witness :
    cleanMsg (pyStripL "err line\nReproduce with:\ncurl -X GET http://x".data) ≠ [] ∧
    ∀ line ∈ splitLinesL
        (extractIssue "S" "GET /h" "1"
          "err line\nReproduce with:\ncurl -X GET http://x").msg.data,
      startsWithL (pyStripL line) "curl ".data = false ∧
      startsWithL (lowerL (pyStripL line)) "reproduce with".data = false :=
  ⟨by decide,
   claim_C1 "S" "GET /h" "1" "err line\nReproduce with:\ncurl -X GET http://x"
     (by decide)⟩

set_option maxHeartbeats 2000000 in
/-- **C1** counterexample: a failure message consisting only of the marker
line and the curl line.  Stripping empties the text, `message` falls back
to the raw message, and so contains both the `"reproduce with"` marker line
and the captured reproduction command. -/
theorem claim_C1_cex :
    (parse_junit [⟨some "S", [⟨some "GET /h", some "1",
        [⟨some "Reproduce with:\ncurl -X GET http://x"⟩]⟩]⟩]).map Issue.msg =
      ["Reproduce with:\ncurl -X GET http://x"] ∧
    (parse_junit [⟨some "S", [⟨some "GET /h", some "1",
        [⟨some "Reproduce with:\ncurl -X GET http://x"⟩]⟩]⟩]).map Issue.curl =
      ["curl -X GET http://x"] ∧
    (splitLinesL "Reproduce with:\ncurl -X GET http://x".data).map
      (fun l => startsWithL (lowerL (pyStripL l)) "reproduce with".data) = [true, false] ∧
    (splitLinesL "Reproduce with:\ncurl -X GET http://x".data).map
      (fun l => startsWithL (pyStripL l) "curl ".data) = [false, true] := by
  refine ⟨by decide, by decide, by decide, by decide⟩

set_option maxHeartbeats 2000000 in
/-- **C5** (amended): the reproduction command is always the trimmed first
line (in top-to-bottom order) whose trimmed form starts with `"curl "` —
captured even when no `"Reproduce with"` marker occurs anywhere — and all
such curl lines are absent from `message` whenever the stripping pass
leaves a nonempty text.  (As stated — curl lines removed from `message`
"regardless of position or count" — the claim fails: a message consisting
only of curl lines falls back to the raw text.) -/
theorem claim_C5 (s n t a : String) :
    ((extractIssue s n t a).curl.data =
      (match (splitLinesL (pyStripL a.data)).find?
          (fun l => startsWithL (pyStripL l) "curl ".data) with
       | some l => pyStripL l
       | none => [])) ∧
    (cleanMsg (pyStripL a.data) ≠ [] →
      ∀ line ∈ splitLinesL (extractIssue s n t a).msg.data,
        startsWithL (pyStripL line) "curl ".data = false) := by
  refine ⟨?_, ?_⟩
  · rw [extractIssue_curl]
    exact stripLines_curl _
  · intro h line hline
    rw [extractIssue_msg, processedMsg_of_ne h] at hline
    exact (cleanMsg_lines _ h line hline).1

set_option maxHeartbeats 4000000 in
/-- **C5** witness: a curl line with no marker anywhere is still captured
(trimmed) and removed from the nonempty `message`. -/
theorem claim_C5_witness :
    ((extractIssue "S" "GET /h" "1" "before\n  curl -X GET http://a\nafter").curl.data =
      (match (splitLinesL (pyStripL "before\n  curl -X GET http://a\nafter".data)).find?
          (fun l => startsWithL (pyStripL l) "curl ".data) with
       | some l => pyStripL l
       | none => [])) ∧
    (extractIssue "S" "GET /h" "1" "before\n  curl -X GET http://a\nafter").curl =
      "curl -X GET http://a" ∧
    cleanMsg (pyStripL "before\n  curl -X GET http://a\nafter".data) ≠ [] ∧
    ∀ line ∈ splitLinesL
        (extractIssue "S" "GET /h" "1" "before\n  curl -X GET http://a\nafter").msg.data,
      startsWithL (pyStripL line) "curl ".data = false :=
  ⟨(claim_C5 "S" "GET /h" "1" "before\n  curl -X GET http://a\nafter").1,
   by decide, by decide,
   (claim_C5 "S" "GET /h" "1" "before\n  curl -X GET http://a\nafter").2 (by decide)⟩

set_option maxHeartbeats 2000000 in
/-- **C5** counterexample: a message that is a single curl line.  The
command is captured, but stripping leaves nothing, `message` falls back to
the raw text and the curl line is not removed from it. -/
theorem claim_C5_cex :
    (parse_junit [⟨some "S", [⟨some "GET /h", some "1",
        [⟨some "curl -X GET http://x"⟩]⟩]⟩]).map Issue.msg =
      ["curl -X GET http://x"] ∧
    (parse_junit [⟨some "S", [⟨some "GET /h", some "1",
        [⟨some "curl -X GET http://x"⟩]⟩]⟩]).map Issue.curl =
      ["curl -X GET http://x"] ∧
    startsWithL (pyStripL "curl -X GET http://x".data) "curl ".data = true := by
  refine ⟨by decide, by decide, by decide⟩

set_option maxHeartbeats 2000000 in
/-- **C10**: a nonempty `reproduction_command` starts with `"curl "`,
contains no newline or carriage-return character, and is fixed by
trimming (no leading or trailing whitespace). -/
theorem claim_C10 (s n t a : String)
    (h : (extractIssue s n t a).curl ≠ "") :
    startsWithL (extractIssue s n t a).curl.data "curl ".data = true ∧
    (∀ c ∈ (extractIssue s n t a).curl.data, c ≠ '\n' ∧ c ≠ '\r') ∧
    pyStrip (extractIssue s n t a).curl = (extractIssue s n t a).curl := by
  have hd := extractIssue_curl s n t a
  rw [stripLines_curl] at hd
  rcases hfind : (splitLinesL (pyStripL a.data)).find?
      (fun l => startsWithL (pyStripL l) "curl ".data) with _ | l
  · rw [hfind] at hd
    have hd2 : (extractIssue s n t a).curl.data = [] := hd
    exact absurd (congrArg String.mk hd2) h
  · rw [hfind] at hd
    have hd2 : (extractIssue s n t a).curl.data = pyStripL l := hd
    have hpred : startsWithL (pyStripL l) "curl ".data = true :=
      @List.find?_some (List Char) (fun x => startsWithL (pyStripL x) "curl ".data)
        l (splitLinesL (pyStripL a.data)) hfind
    have hmem : l ∈ splitLinesL (pyStripL a.data) :=
      @List.mem_of_find?_eq_some (List Char)
        (fun x => startsWithL (pyStripL x) "curl ".data)
        l (splitLinesL (pyStripL a.data)) hfind
    refine ⟨?_, ?_, ?_⟩
    · rw [hd2]
      exact hpred
    · intro c hc
      rw [hd2] at hc
      have hcl : c ∈ l := mem_of_mem_pyStripL hc
      have hnb : isLineB c = false := splitLinesL_no_boundary l hmem c hcl
      constructor
      · intro hk
        subst hk
        exact absurd hnb (by decide)
      · intro hk
        subst hk
        exact absurd hnb (by decide)
    · rw [pyStrip]
      apply congrArg String.mk
      rw [hd2, pyStripL_idem, ← extractIssue_curl s n t a, hd2]

set_option maxHeartbeats 4000000 in
/-- **C10** witness: a captured curl line with surrounding whitespace. -/
theorem claim_C10_witness :
    (extractIssue "S" "GET /h" "1" "err\n   curl -X GET http://x  \t\ndone").curl ≠ "" ∧
    startsWithL
      (extractIssue "S" "GET /h" "1" "err\n   curl -X GET http://x  \t\ndone").curl.data
      "curl ".data = true ∧
    pyStrip (extractIssue "S" "GET /h" "1" "err\n   curl -X GET http://x  \t\ndone").curl =
      (extractIssue "S" "GET /h" "1" "err\n   curl -X GET http://x  \t\ndone").curl :=
  ⟨by decide,
   (claim_C10 "S" "GET /h" "1" "err\n   curl -X GET http://x  \t\ndone" (by decide)).1,
   (claim_C10 "S" "GET /h" "1" "err\n   curl -X GET http://x  \t\ndone" (by decide)).2.2⟩

set_option maxHeartbeats 2000000 in
/-- **C6**: `base_urls` is a strictly sorted (hence duplicate-free) list
whose members are exactly the nonempty scheme+host strings extracted per
Issue — from the reproduction command when its first URL match parses,
falling through to the suite name when it does not match or `urlparse`
raises; and two Issues whose commands hit `https://a.test/x` and
`https://a.test/y` contribute `https://a.test` exactly once. -/
theorem claim_C6 (issues : List Issue) :
    (base_urls issues).Pairwise (fun a b => strLtB a b = true) ∧
    (base_urls issues).Nodup ∧
    (∀ u : String, u ∈ base_urls issues ↔
      u ≠ "" ∧ ∃ i ∈ issues, extract_base_url i.curl i.suite = u) ∧
    (∀ (cc sn : String) (b : List Char),
      urlBaseOf cc = some b → extract_base_url cc sn = ⟨b⟩) ∧
    (∀ cc sn : String, urlBaseOf cc = none →
      extract_base_url cc sn =
        (match urlBaseOf sn with | some b => (⟨b⟩ : String) | none => "")) ∧
    base_urls
      [⟨"s1", "e1", "", "", "", "", "", "curl -X GET https://a.test/x"⟩,
       ⟨"s2", "e2", "", "", "", "", "", "curl -X GET https://a.test/y"⟩] =
      ["https://a.test"] := by
  refine ⟨base_urls_pairwise issues, base_urls_nodup issues,
    mem_base_urls issues, ?_, ?_, by decide⟩
  · intro cc sn b hb
    rw [extract_base_url, hb]
  · intro cc sn hb
    rw [extract_base_url, hb]

set_option maxHeartbeats 2000000 in
/-- **C6** witness: the reproduction command is preferred over the suite
name when its URL parses; a `urlparse` failure on the command falls back
to the suite name. -/
theorem claim_C6_witness :
    extract_base_url "curl -X GET https://a.test/x" "suite http://other.host/z" =
      "https://a.test" ∧
    extract_base_url "curl -X GET http://[abc" "suite http://other.host/z" =
      "http://other.host" :=
  ⟨by rw [(claim_C6 []).2.2.2.1 "curl -X GET https://a.test/x"
      "suite http://other.host/z" "https://a.test".data (by decide)],
   by rw [(claim_C6 []).2.2.2.2.1 "curl -X GET http://[abc"
      "suite http://other.host/z" (by decide)]; decide⟩

set_option maxHeartbeats 2000000 in
/-- **C7** (amended): the parsed times are exactly the Issues whose `time`
string `float()`-parses (unparseable times are excluded, not zeroed), the
defaults are `0.0`/`1.0` when nothing parses, `min_time`/`max_time` are
always members of the parsed list, and — provided no parsed time is NaN —
they bound every parsed value (infinities included, in the IEEE order).
(As stated the claim fails: with a `time="nan"` Issue, `float()` parses it
and Python's `min`/`max` return a position-dependent result that bounds
nothing, so `min_time` is not "the minimum over exactly those Issues whose
time parses".) -/
theorem claim_C7 (issues : List Issue) :
    (∀ t : PyFloat, t ∈ parsedTimes issues ↔ ∃ i ∈ issues, pyFloat? i.time = some t) ∧
    (parsedTimes issues = [] →
      min_time issues = .finite ⟨0, 0⟩ ∧ max_time issues = .finite ⟨1, 0⟩) ∧
    (parsedTimes issues ≠ [] →
      min_time issues ∈ parsedTimes issues ∧ max_time issues ∈ parsedTimes issues) ∧
    ((∀ t ∈ parsedTimes issues, notNanB t = true) →
      ∀ t ∈ parsedTimes issues,
        pyLeB (min_time issues) t = true ∧ pyLeB t (max_time issues) = true) := by
  refine ⟨?_, ?_, ?_, ?_⟩
  · intro t
    exact List.mem_filterMap
  · intro h
    constructor
    · rw [min_time, h]
    · rw [max_time, h]
  · intro h
    rcases hpt : parsedTimes issues with _ | ⟨t0, ts⟩
    · exact absurd hpt h
    · constructor
      · rw [min_time, hpt]
        show List.foldl (fun acc x => if pyLtB x acc = true then x else acc) t0 ts ∈ t0 :: ts
        rcases foldl_min_mem ts t0 with h2 | h2
        · rw [h2]; exact List.mem_cons_self _ _
        · exact List.mem_cons_of_mem _ h2
      · rw [max_time, hpt]
        show List.foldl (fun acc x => if pyLtB acc x = true then x else acc) t0 ts ∈ t0 :: ts
        rcases foldl_max_mem ts t0 with h2 | h2
        · rw [h2]; exact List.mem_cons_self _ _
        · exact List.mem_cons_of_mem _ h2
  · intro hnn t ht
    rcases hpt : parsedTimes issues with _ | ⟨t0, ts⟩
    · rw [hpt] at ht; cases ht
    · rw [hpt] at ht hnn
      have hnt0 : notNanB t0 = true := hnn t0 (List.mem_cons_self _ _)
      have hnts : ∀ z ∈ ts, notNanB z = true :=
        fun z hz => hnn z (List.mem_cons_of_mem _ hz)
      constructor
      · rw [min_time, hpt]
        show pyLeB
          (List.foldl (fun acc x => if pyLtB x acc = true then x else acc) t0 ts) t = true
        rcases List.mem_cons.mp ht with rfl | h2
        · exact foldl_min_le ts t t hnt0 hnts (Or.inl rfl)
        · exact foldl_min_le ts t0 t hnt0 hnts (Or.inr h2)
      · rw [max_time, hpt]
        show pyLeB t
          (List.foldl (fun acc x => if pyLtB acc x = true then x else acc) t0 ts) = true
        rcases List.mem_cons.mp ht with rfl | h2
        · exact foldl_max_ge ts t t hnt0 hnts (Or.inl rfl)
        · exact foldl_max_ge ts t0 t hnt0 hnts (Or.inr h2)

set_option maxHeartbeats 2000000 in
/-- **C7** witness: times `"0.12"`, `"3.4"`, `"bad"` give
`min_time = 0.12` and `max_time = 3.4`; the malformed entry is excluded. -/
theorem claim_C7_witness :
    parsedTimes
        [⟨"s", "e", "0.12", "", "", "", "", ""⟩,
         ⟨"s", "e", "3.4", "", "", "", "", ""⟩,
         ⟨"s", "e", "bad", "", "", "", "", ""⟩] ≠ [] ∧
    min_time
        [⟨"s", "e", "0.12", "", "", "", "", ""⟩,
         ⟨"s", "e", "3.4", "", "", "", "", ""⟩,
         ⟨"s", "e", "bad", "", "", "", "", ""⟩] ∈
      parsedTimes
        [⟨"s", "e", "0.12", "", "", "", "", ""⟩,
         ⟨"s", "e", "3.4", "", "", "", "", ""⟩,
         ⟨"s", "e", "bad", "", "", "", "", ""⟩] ∧
    (∀ t ∈ parsedTimes
        [⟨"s", "e", "0.12", "", "", "", "", ""⟩,
         ⟨"s", "e", "3.4", "", "", "", "", ""⟩,
         ⟨"s", "e", "bad", "", "", "", "", ""⟩],
      pyLeB (min_time
        [⟨"s", "e", "0.12", "", "", "", "", ""⟩,
         ⟨"s", "e", "3.4", "", "", "", "", ""⟩,
         ⟨"s", "e", "bad", "", "", "", "", ""⟩]) t = true) ∧
    min_time
        [⟨"s", "e", "0.12", "", "", "", "", ""⟩,
         ⟨"s", "e", "3.4", "", "", "", "", ""⟩,
         ⟨"s", "e", "bad", "", "", "", "", ""⟩] = .finite ⟨12, 2⟩ ∧
    max_time
        [⟨"s", "e", "0.12", "", "", "", "", ""⟩,
         ⟨"s", "e", "3.4", "", "", "", "", ""⟩,
         ⟨"s", "e", "bad", "", "", "", "", ""⟩] = .finite ⟨34, 1⟩ :=
  ⟨by decide,
   ((claim_C7
      [⟨"s", "e", "0.12", "", "", "", "", ""⟩,
       ⟨"s", "e", "3.4", "", "", "", "", ""⟩,
       ⟨"s", "e", "bad", "", "", "", "", ""⟩]).2.2.1 (by decide)).1,
   fun t ht =>
     ((claim_C7
        [⟨"s", "e", "0.12", "", "", "", "", ""⟩,
         ⟨"s", "e", "3.4", "", "", "", "", ""⟩,
         ⟨"s", "e", "bad", "", "", "", "", ""⟩]).2.2.2 (by decide) t ht).1,
   by decide, by decide⟩

set_option maxHeartbeats 2000000 in
/-- **C7** counterexample: `float("nan")` parses, and Python's `min` over
a list containing NaN is position-dependent and bounds nothing — with
times `["nan", "1.0"]` the program's `min_time` is NaN, which is not below
the parsed time `1.0`, while `["1.0", "nan"]` gives `1.0`; so `min_time`
is not "the minimum over exactly those Issues whose time parses". -/
theorem claim_C7_cex :
    parsedTimes
        [⟨"s", "e", "nan", "", "", "", "", ""⟩,
         ⟨"s", "e", "1.0", "", "", "", "", ""⟩] =
      [PyFloat.nan, PyFloat.finite ⟨10, 1⟩] ∧
    min_time
        [⟨"s", "e", "nan", "", "", "", "", ""⟩,
         ⟨"s", "e", "1.0", "", "", "", "", ""⟩] = PyFloat.nan ∧
    pyLeB
      (min_time
        [⟨"s", "e", "nan", "", "", "", "", ""⟩,
         ⟨"s", "e", "1.0", "", "", "", "", ""⟩])
      (PyFloat.finite ⟨10, 1⟩) = false ∧
    min_time
        [⟨"s", "e", "1.0", "", "", "", "", ""⟩,
         ⟨"s", "e", "nan", "", "", "", "", ""⟩] = PyFloat.finite ⟨10, 1⟩ := by
  refine ⟨by decide, by decide, by decide, by decide⟩
